import Mathlib

/-!
Verification development for the LocalDesk-Skills `rlm-pdf-reader` skill.

The skill consists of three Python modules:
  * `rlm_engine.py`   — the RLM completion loop, response parsing and sub-query dispatch;
  * `pdf_processor.py` — PDF text chunking and structure analysis;
  * `skill.py`        — the top-level `process_pdf` / `analyze_structure` operations.

This file is a shallow embedding of those modules.  Text is modelled as
`List Char` (Python `str` indexing is by code point, matching `List Char`
positions).  External effects — the LLM CLI tool, Python `exec`, PDF file
extraction — are modelled as oracle parameters; everything else is translated
directly from the source.  Python regular-expression searches are embedded as
deterministic scanning functions: for each concrete pattern appearing in the
source the backtracking behaviour of the pattern is fully determined, and the
scanners below implement exactly that behaviour (leftmost match, greedy
character classes, lazy `+?`/`*?` with deterministic continuations).
-/

namespace RLMSpec

/-! ## Basic character/string helpers (Python semantics) -/

/-- The two quote characters recognised by the `["\']` character class. -/
def isQuote (c : Char) : Bool := c == '"' || c == '\''

/-- Python `\s` / `str.strip()` whitespace (ASCII subset). -/
def isPySpace (c : Char) : Bool :=
  c == ' ' || c == '\t' || c == '\n' || c == '\r' || c == '\x0b' || c == '\x0c'

/-- Python `str.strip()`: drop leading and trailing whitespace. -/
def pyStrip (l : List Char) : List Char :=
  ((l.dropWhile isPySpace).reverse.dropWhile isPySpace).reverse

/-! ## `RLMEngine._extract_final_answer`

The source tries `re.search(r'FINAL\(["\']([^"\']+)["\']\)', text)` first and
falls back to `re.search(r'FINAL\(\s*["\'](.+?)["\']\s*\)', text, re.DOTALL)`.
-/

/-- The literal `FINAL(` prefix required by both patterns. -/
def finalLit : List Char := ['F', 'I', 'N', 'A', 'L', '(']

/-- The `([^"\']+)["\']\)` tail shared by the first `FINAL` pattern and the
`llm_query` pattern: a non-empty maximal run of non-quote characters, then a
quote, then `)`.  The greedy `[^"\']+` cannot backtrack usefully (every
shorter prefix of the maximal non-quote run is followed by a non-quote
character), so the group is the maximal non-quote run. -/
def quotedTail : List Char → List Char → Option (List Char)
  | run, q2 :: c2 :: _ => if isQuote q2 && c2 == ')' && !run.isEmpty then some run else none
  | _, _ => none

def quotedRun (rest : List Char) : Option (List Char) :=
  quotedTail (rest.takeWhile (fun c => !(isQuote c))) (rest.dropWhile (fun c => !(isQuote c)))

/-- The part of the first pattern after the `FINAL(` literal: an opening
quote, then `quotedRun`. -/
def afterLit1 : List Char → Option (List Char)
  | [] => none
  | q :: rest => if isQuote q then quotedRun rest else none

/-- Match `FINAL\(["\']([^"\']+)["\']\)` anchored at the head of `l`,
returning the captured group. -/
def matchFinal1At (l : List Char) : Option (List Char) :=
  if finalLit.isPrefixOf l then afterLit1 (l.drop 6) else none

/-- Does `l` start with optional whitespace followed by `)`?  This is the
`\s*\)` tail of the multiline pattern (deterministic: `)` is not whitespace,
so the greedy `\s*` cannot backtrack usefully). -/
def closeAfterSpaces (l : List Char) : Bool :=
  match l.dropWhile isPySpace with
  | ')' :: _ => true
  | _ => false

/-- The lazy `(.+?)["\']\s*\)` part of the DOTALL pattern: accumulate at least
one character (any character, `re.DOTALL`), stopping at the first position
where a quote followed by `\s*\)` completes the match. -/
def lazyFinal2 : List Char → List Char → Option (List Char)
  | [], _ => none
  | [_], _ => none
  | c :: q2 :: tail, acc =>
    if isQuote q2 && closeAfterSpaces tail then some (acc ++ [c])
    else lazyFinal2 (q2 :: tail) (acc ++ [c])

/-- The part of the DOTALL pattern after `FINAL(` and the whitespace run: an
opening quote, then the lazy group. -/
def afterSpaces : List Char → Option (List Char)
  | [] => none
  | q :: rest => if isQuote q then lazyFinal2 rest [] else none

/-- Match `FINAL\(\s*["\'](.+?)["\']\s*\)` (DOTALL) anchored at the head of
`l`.  The greedy `\s*` after `(` is deterministic because no whitespace
character is a quote. -/
def matchFinal2At (l : List Char) : Option (List Char) :=
  if finalLit.isPrefixOf l then afterSpaces ((l.drop 6).dropWhile isPySpace) else none

/-- `re.search`: try the anchored matcher at each position, left to right. -/
def searchAux (f : List Char → Option (List Char)) : List Char → Option (List Char)
  | [] => f []
  | l@(_ :: t) =>
    match f l with
    | some r => some r
    | none => searchAux f t

/-- `RLMEngine._extract_final_answer` (source lines 266-280). -/
def extract_final_answer (l : List Char) : Option (List Char) :=
  match searchAux matchFinal1At l with
  | some r => some r
  | none => searchAux matchFinal2At l

/-! ## `RLMEngine._extract_python_code`

`re.search(r'```python\n(.*?)\n```', text, re.DOTALL)`.
-/

/-- The literal ` ```python\n ` opening fence. -/
def codeFenceLit : List Char := ['`', '`', '`', 'p', 'y', 't', 'h', 'o', 'n', '\n']

/-- The literal `\n``` ` closing fence. -/
def fenceClose : List Char := ['\n', '`', '`', '`']

/-- The lazy `(.*?)\n``` ` part: the group ends at the first occurrence of the
closing fence (possibly an empty group). -/
def lazyCode : List Char → List Char → Option (List Char)
  | [], _ => none
  | l@(c :: rest), acc =>
    if fenceClose.isPrefixOf l then some acc
    else lazyCode rest (acc ++ [c])

/-- `RLMEngine._extract_python_code` (source lines 282-291).  Note the lazy
scan starts by checking for an immediately-closing fence, so an empty code
block is matched with an empty group. -/
def matchCodeAt (l : List Char) : Option (List Char) :=
  if codeFenceLit.isPrefixOf l then
    if fenceClose.isPrefixOf (l.drop 10) then some []
    else lazyCode (l.drop 10) []
  else none

def extract_python_code (l : List Char) : Option (List Char) :=
  searchAux matchCodeAt l

/-! ## `RLMEngine._extract_llm_queries`

`re.finditer(r'llm_query\(["\']([^"\']+)["\']\)', text)` — all
non-overlapping matches, in text order.
-/

def llmLit : List Char := ['l', 'l', 'm', '_', 'q', 'u', 'e', 'r', 'y', '(']

/-- Match the `llm_query` pattern anchored at the head of `l`, returning the
captured group together with the total length of the match (needed for the
non-overlapping continuation of `finditer`).  The quoted-argument tail is the
same sub-pattern as in the first `FINAL` pattern. -/
def matchLlmAt (l : List Char) : Option (List Char × Nat) :=
  if llmLit.isPrefixOf l then
    (afterLit1 (l.drop 10)).map (fun run => (run, 10 + 1 + run.length + 2))
  else none

/-- `finditer` driver: `skip` counts positions still inside the previous
match (which may not start a new match). -/
def llmAux : Nat → List Char → List (List Char)
  | _, [] => []
  | s+1, _ :: rest => llmAux s rest
  | 0, l@(_ :: rest) =>
    match matchLlmAt l with
    | some (g, n) => g :: llmAux (n - 1) rest
    | none => llmAux 0 rest

/-- `RLMEngine._extract_llm_queries` (source lines 293-302). -/
def extract_llm_queries (l : List Char) : List (List Char) :=
  llmAux 0 l

/-! ## Number formatting

Python `f"{n:,}"` groups the decimal digits of a non-negative integer in
threes with commas. -/

def commaRev : Nat → List Char → List Char
  | _, [] => []
  | k, c :: rest => if k == 3 then ',' :: c :: commaRev 1 rest else c :: commaRev (k + 1) rest

def commaFmt (n : Nat) : String :=
  String.mk ((commaRev 0 (Nat.repr n).data.reverse).reverse)

/-! ## `RLMStats` (rlm_engine.py lines 18-36) -/

structure RLMStats where
  root_calls : Nat
  sub_calls : Nat
  root_tokens : Nat
  sub_tokens : Nat
  iterations : Nat
deriving DecidableEq, Repr

/-- The dataclass field defaults. -/
def zeroStats : RLMStats := ⟨0, 0, 0, 0, 0⟩

/-! ## Engine configuration and external oracles

`cli_tool` is an arbitrary Python callable: it may return a string, return
`None`, or raise.  We model it as a function of a global call counter (so a
stateful callable whose behaviour depends on how often it was invoked is
covered) plus the `prompt` and `system_prompt` arguments.  Python `exec` is
likewise an external effect, modelled as an oracle from an execution counter
and the code string to an outcome. -/

structure RLMConfig where
  max_iterations : Nat
  max_output_length : Nat
deriving DecidableEq, Repr

/-- `RLMEngine.__init__` defaults (`verbose` only controls progress printing
and has no behavioural effect, so it is not modelled). -/
def defaultConfig : RLMConfig := ⟨10, 500000⟩

inductive CliResp where
  | ok (resp : Option String)
  | exn (msg : String)

def CliTool : Type := Nat → String → String → CliResp

inductive ExecOutcome where
  | success (output : String)
  | failure (errMsg : String)
deriving DecidableEq, Repr

def ExecTool : Type := Nat → String → ExecOutcome

/-! ## Prompt texts (verbatim from rlm_engine.py) -/

/-- `RLMEngine._get_system_prompt` (lines 304-324). -/
def rlm_system_prompt : String :=
  "You are operating in a Recursive Language Model (RLM) environment designed for processing large documents.\n\nKEY PRINCIPLES:\n1. The full document content is stored externally in a Python REPL variable called `context`\n2. You can examine the context using Python: print(context[:1000]) to see first 1000 chars\n3. For complex tasks, break them into sub-tasks and use llm_query() for parallel processing\n4. Use Python to search, filter, and analyze the document programmatically\n5. When you have your final answer, call FINAL(\"your answer here\")\n\nAVAILABLE FUNCTIONS:\n- llm_query(\"prompt\"): Spawn a sub-LLM to handle a sub-task (use for parallel processing)\n- print(...): Output text to inspect the REPL environment\n- Python: Full Python language for string manipulation, data analysis, etc.\n\nIMPORTANT:\n- Do NOT try to load the entire context into your response at once\n- Use Python to filter and extract relevant portions\n- Use llm_query() to parallelize independent sub-tasks\n- Always call FINAL() when done to provide your answer"

/-- The framed initial user message of `RLMEngine.completion` (lines 85-106). -/
def initial_user_message (context query : String) : String :=
  "You are operating in a Recursive Language Model (RLM) environment.\n\nCONTEXT INFORMATION:\n- The full document content is available in the Python REPL variable `context`\n- Context length: "
    ++ commaFmt context.length
    ++ " characters\n- Context preview (first 500 chars): "
    ++ String.mk (context.data.take 500)
    ++ "...\n\nYOUR QUERY: "
    ++ query
    ++ "\n\nAvailable functions:\n- llm_query(prompt): Make a recursive sub-LLM call (for parallel processing)\n- print(content): Output to REPL (will be visible to you)\n- FINAL(answer): Submit your final answer and complete the task\n- Python: Full Python language for analysis, transformation, filtering\n\nStrategy:\n1. First, explore the context using Python to understand structure\n2. Break down complex queries into sub-tasks\n3. Use llm_query() in parallel for independent sub-tasks\n4. Synthesize findings and call FINAL() with your answer\n\nBegin your analysis now."

/-- The framed sub-query prompt of `RLMEngine._execute_sub_queries`
(lines 246-255); note the `  # First 5000 chars for context` text is part of
the f-string literal, not a comment. -/
def sub_prompt (context query : String) : String :=
  "You are a sub-LLM in a Recursive Language Model system.\n\nCONTEXT SNIPPET:\n"
    ++ String.mk (context.data.take 5000)
    ++ "  # First 5000 chars for context\n\nYOUR SUB-TASK:\n"
    ++ query
    ++ "\n\nProvide a concise, focused answer to this specific sub-task.\nDo not call FINAL() or llm_query() - just answer directly."

def sub_system_prompt : String :=
  "You are a specialized sub-model assisting with document analysis."

/-- The corrective next-prompt built in the `except` handler (line 176). -/
def error_message (e : String) : String :=
  "Error occurred: " ++ e ++ "\nPlease retry or adjust your approach."

/-- The next-prompt after code execution (lines 148-151), truncating the REPL
output to `max_output_length` characters. -/
def repl_message (maxLen : Nat) (execResult : String) : String :=
  "REPL output from your code:\n"
    ++ String.mk (execResult.data.take maxLen)
    ++ "\n\nContinue your analysis. Remember to use FINAL(answer) when done."

/-- `"\n\n".join(f"Sub-query {i+1} result:\n{r}" ...)` (lines 158-161). -/
def subResultsJoin : Nat → List String → String
  | _, [] => ""
  | i, [r] => "Sub-query " ++ Nat.repr (i + 1) ++ " result:\n" ++ r
  | i, r :: r2 :: rest =>
    "Sub-query " ++ Nat.repr (i + 1) ++ " result:\n" ++ r ++ "\n\n" ++ subResultsJoin (i + 1) (r2 :: rest)

/-- The next-prompt after parallel sub-queries (lines 163-167). -/
def sub_results_message (results : List String) : String :=
  "Parallel sub-LLM results:\n\n"
    ++ subResultsJoin 0 results
    ++ "\n\nUse these results to continue your analysis. Call FINAL(answer) when ready."

/-! ## `RLMEngine._execute_repl_code` (lines 190-230)

The `exec` call itself is the oracle outcome; the wrapper turns a raised
exception into an `<execution error: …>` string and an empty captured output
into the success sentinel. -/

def execute_repl_code (o : ExecOutcome) : String :=
  match o with
  | .success out => if out == "" then "<code executed successfully, no output>" else out
  | .failure e => "<execution error: " ++ e ++ ">"

/-! ## `RLMEngine._execute_sub_queries` (lines 232-264) -/

/-- Python truthiness of an `Optional[str]`: `None` and `""` are falsy. -/
def pyFalsyResp (r : Option String) : Bool :=
  match r with
  | none => true
  | some s => s == ""

structure SubDispatch where
  results : List String
  tokens : Nat
  callIdx : Nat
deriving DecidableEq, Repr

/-- The sequential dispatch loop: one `cli_tool` call per query, an
`<error: …>` marker for a raising call, `<no response>` for a falsy response,
and `sub_tokens` accumulated from the length of each truthy response. -/
def execute_sub_queries (queries : List String) (tool : CliTool) (callIdx : Nat)
    (context : String) : SubDispatch :=
  match queries with
  | [] => ⟨[], 0, callIdx⟩
  | q :: rest =>
    let entry :=
      match tool callIdx (sub_prompt context q) sub_system_prompt with
      | .exn e => ("<error: " ++ e ++ ">", 0)
      | .ok r => if pyFalsyResp r then ("<no response>", 0) else (r.getD "", (r.getD "").length)
    let tail := execute_sub_queries rest tool (callIdx + 1) context
    ⟨entry.1 :: tail.results, entry.2 + tail.tokens, tail.callIdx⟩

/-! ## The completion loop (`RLMEngine.completion`, lines 58-181) -/

structure LoopSt where
  stats : RLMStats
  callIdx : Nat
  execIdx : Nat
  userMsg : String
  history : List String
deriving DecidableEq, Repr

/-- `not response or response.strip() == ""` (line 125). -/
def respBlank (r : Option String) : Bool :=
  match r with
  | none => true
  | some s => s == "" || pyStrip s.data == []

/-- Python truthiness of an `Optional[str]` holding extracted code: `None`
and the empty string are falsy.  `_extract_python_code` returns the empty
string for an empty tagged fence, and `if python_code:` (line 145) then
falls through to the `elif sub_queries:` branch. -/
def pyTruthyStrOpt (o : Option (List Char)) : Bool :=
  match o with
  | none => false
  | some l => !l.isEmpty

/-- Lines 112-113: every iteration increments `iterations` and `root_calls`
before the cli call is attempted. -/
def bumpStats (s : RLMStats) : RLMStats :=
  { s with iterations := s.iterations + 1, root_calls := s.root_calls + 1 }

/-- One iteration of the `for` loop (lines 111-176).  `.error` carries the
early `return final_answer` (together with the statistics at that point);
`.ok` is the state for the next iteration.  The `try`/`except` around the
body only ever receives exceptions from the root `cli_tool` call: the
extractors are pure, `_execute_repl_code` and `_execute_sub_queries` catch
their own exceptions internally. -/
def completionStep (cfg : RLMConfig) (context : String) (tool : CliTool) (execT : ExecTool)
    (st : LoopSt) : Except (String × RLMStats) LoopSt :=
  let stats1 := bumpStats st.stats
  match tool st.callIdx st.userMsg rlm_system_prompt with
  | .exn e => .ok { st with stats := stats1, callIdx := st.callIdx + 1, userMsg := error_message e }
  | .ok resp =>
    if respBlank resp then
      -- empty/blank response: `continue` without changing the prompt
      .ok { st with stats := stats1, callIdx := st.callIdx + 1 }
    else
      let r := resp.getD ""
      let st1 : LoopSt :=
        { stats := stats1, callIdx := st.callIdx + 1, execIdx := st.execIdx,
          userMsg := st.userMsg, history := st.history ++ [r] }
      match extract_final_answer r.data with
      | some a => .error (String.mk a, st1.stats)
      | none =>
        -- `if python_code:` (line 145) is a truthiness test: `None` AND the
        -- empty string (from an empty tagged fence) fall through to
        -- `elif sub_queries:`.
        if pyTruthyStrOpt (extract_python_code r.data) then
          let code := (extract_python_code r.data).getD []
          let execResult := execute_repl_code (execT st1.execIdx (String.mk code))
          .ok { st1 with
                execIdx := st1.execIdx + 1
                userMsg := repl_message cfg.max_output_length execResult }
        else
          match extract_llm_queries r.data with
          | [] => .ok { st1 with userMsg := r }
          | q :: qs =>
            let sres := execute_sub_queries ((q :: qs).map String.mk) tool st1.callIdx context
            .ok { st1 with
                  callIdx := sres.callIdx
                  stats := { st1.stats with
                             sub_calls := st1.stats.sub_calls + (q :: qs).length
                             sub_tokens := st1.stats.sub_tokens + sres.tokens }
                  userMsg := sub_results_message sres.results }

/-- `for iteration in range(self.max_iterations)`, returning `None` when the
budget is exhausted. -/
def completionLoop (cfg : RLMConfig) (context : String) (tool : CliTool) (execT : ExecTool) :
    Nat → LoopSt → Option String × RLMStats
  | 0, st => (none, st.stats)
  | fuel + 1, st =>
    match completionStep cfg context tool execT st with
    | .error (ans, s) => (some ans, s)
    | .ok st' => completionLoop cfg context tool execT fuel st'

/-- The loop's starting state: line 108 resets only `stats.iterations`. -/
def initLoopSt (stats0 : RLMStats) (context query : String) : LoopSt :=
  { stats := { stats0 with iterations := 0 }, callIdx := 0, execIdx := 0,
    userMsg := initial_user_message context query, history := [] }

/-- `RLMEngine.completion`: returns the final answer (or `none`) together with
the statistics after the run. -/
def completion (cfg : RLMConfig) (stats0 : RLMStats) (context query : String)
    (tool : CliTool) (execT : ExecTool) : Option String × RLMStats :=
  completionLoop cfg context tool execT cfg.max_iterations (initLoopSt stats0 context query)

/-! ## Parsed intent (spec section 4.4)

The spec models the per-iteration decision of `completion` (lines 132-171) as
a tagged `Intent`; `parse_intent` is that decision sequence, factored out of
the loop body: first `_extract_final_answer`, then `if python_code:` — a
Python truthiness test, so an extracted EMPTY code block (empty tagged
fence) is falsy and falls through — then `elif sub_queries:`, else continue
with the raw response. -/

inductive Intent where
  | FinalAnswer (text : String)
  | CodeBlock (code : String)
  | SubQueries (prompts : List String)
  | Continue (raw : String)
deriving DecidableEq, Repr

def parse_intent (response : String) : Intent :=
  match extract_final_answer response.data with
  | some a => .FinalAnswer (String.mk a)
  | none =>
    if pyTruthyStrOpt (extract_python_code response.data) then
      .CodeBlock (String.mk ((extract_python_code response.data).getD []))
    else
      match extract_llm_queries response.data with
      | [] => .Continue response
      | q :: qs => .SubQueries ((q :: qs).map String.mk)

/-! ## Result formatting in `RLMPDFReader.process_pdf` (skill.py lines 84-101) -/

/-- `if answer: … else: "RLM analysis did not converge within max iterations."`
(`answer` is Python-truthy tested, so an empty string also reports
non-convergence). -/
def format_process_result (answer : Option String) (s : RLMStats) : String :=
  match answer with
  | some a =>
    if a == "" then "RLM analysis did not converge within max iterations."
    else
      "# RLM Analysis Result\n\n" ++ a
        ++ "\n\n---\n## RLM Statistics\n- Iterations: " ++ Nat.repr s.iterations
        ++ "\n- Root LLM calls: " ++ Nat.repr s.root_calls
        ++ "\n- Sub-LLM calls: " ++ Nat.repr s.sub_calls
        ++ "\n- Total LLM calls: " ++ Nat.repr (s.root_calls + s.sub_calls)
        ++ "\n- Root tokens: " ++ commaFmt s.root_tokens
        ++ "\n- Sub-tokens: " ++ commaFmt s.sub_tokens
        ++ "\n- Total tokens: " ++ commaFmt (s.root_tokens + s.sub_tokens)
        ++ "\n"
  | none => "RLM analysis did not converge within max iterations."

/-! ## pdf_processor.py — data model -/

inductive ChunkMeta where
  | sectionMeta
  | sizeMeta (char_start char_end : Int)
deriving DecidableEq, Repr

/-- `PDFChunk` (pdf_processor.py lines 15-25); the metadata dict carries the
chunking method (and, for size chunks, the raw character offsets). -/
structure PDFChunk where
  content : List Char
  start_page : Nat
  end_page : Nat
  metadata : ChunkMeta
deriving DecidableEq, Repr

/-- `PDFDocument` (lines 28-42); the `pages` list and metadata dict are never
read by the embedded operations. -/
structure PDFDocument where
  title : String
  author : String
  content : String
  total_pages : Nat
deriving DecidableEq, Repr

/-! ## Python slicing and `str.rfind`

Python slice indices may be negative (counted from the end) and are clamped
to `[0, len]`; `str.rfind(sub, start, end)` returns the largest `p` with
`start' ≤ p` and `p + len(sub) ≤ end'` at which `sub` occurs, or `-1`. -/

def pyIdx (len : Nat) (i : Int) : Nat :=
  if i < 0 then ((len : Int) + i).toNat else min i.toNat len

def pySlice (l : List Char) (a b : Int) : List Char :=
  (l.take (pyIdx l.length b)).drop (pyIdx l.length a)

/-- `s[a:b]` for already-normalised natural indices. -/
def listSliceNat (l : List Char) (a b : Nat) : List Char :=
  (l.take b).drop a

/-- Scan candidate positions `lo + k - 1, …, lo` (descending). -/
def rfindAux (l sub : List Char) (lo : Nat) : Nat → Int
  | 0 => -1
  | k + 1 =>
    let p := lo + k
    if sub.isPrefixOf (l.drop p) then (p : Int) else rfindAux l sub lo k

def pyRfind (l sub : List Char) (a b : Int) : Int :=
  let lo := pyIdx l.length a
  let hi := pyIdx l.length b
  if lo + sub.length ≤ hi then rfindAux l sub lo (hi + 1 - (sub.length + lo))
  else -1

/-! ## `PDFProcessor._chunk_by_size` (lines 221-257)

The `while start < len(content)` loop is modelled with explicit fuel: the
source performs no progress validation and genuinely diverges for some
configurations, so the embedding returns `none` when the fuel runs out with
the loop still running. -/

/-- The end-offset computation of one window, including the sentence- and
paragraph-boundary snapping (lines 230-242). -/
def chunkEnd (cs : Nat) (content : List Char) (start : Int) : Int :=
  let n : Int := content.length
  let e0 : Int := start + cs
  if e0 < n then
    let sentence_end := pyRfind content ['.'] start (e0 + 200)
    if sentence_end > start + ((cs / 2 : Nat) : Int) then sentence_end + 1
    else
      let para_end := pyRfind content ['\n', '\n'] start (e0 + 200)
      if para_end > start + ((cs / 2 : Nat) : Int) then para_end + 2
      else e0
  else e0

structure SizeSt where
  start : Int
  chunkNum : Nat
  chunks : List PDFChunk
deriving DecidableEq, Repr

/-- One iteration of the `while` loop body (lines 229-255). -/
def sizeStep (cs ov : Nat) (content : List Char) (s : SizeSt) : SizeSt :=
  let e := chunkEnd cs content s.start
  let cc := pyStrip (pySlice content s.start e)
  if 100 < cc.length then
    { start := e - ov
      chunkNum := s.chunkNum + 1
      chunks := s.chunks ++ [⟨cc, s.chunkNum + 1, s.chunkNum + 1, .sizeMeta s.start e⟩] }
  else { s with start := e - ov }

def sizeRun (cs ov : Nat) (content : List Char) : Nat → SizeSt → Option (List PDFChunk)
  | 0, s => if s.start < (content.length : Int) then none else some s.chunks
  | fuel + 1, s =>
    if s.start < (content.length : Int) then sizeRun cs ov content fuel (sizeStep cs ov content s)
    else some s.chunks

def chunkBySizeFuel (fuel : Nat) (content : List Char) (cs ov : Nat) : Option (List PDFChunk) :=
  sizeRun cs ov content fuel ⟨0, 0, []⟩

/-- Ghost companion of `sizeRun`: the trimmed slice considered by every
window step, whether or not it was emitted. -/
def sizeTrace (cs ov : Nat) (content : List Char) : Nat → Int → Option (List (List Char))
  | 0, start => if start < (content.length : Int) then none else some []
  | fuel + 1, start =>
    if start < (content.length : Int) then
      let e := chunkEnd cs content start
      let cc := pyStrip (pySlice content start e)
      (sizeTrace cs ov content fuel (e - ov)).map (fun tr => cc :: tr)
    else some []

def sizeTraceFuel (fuel : Nat) (content : List Char) (cs ov : Nat) : Option (List (List Char)) :=
  sizeTrace cs ov content fuel 0

/-! ## `PDFProcessor._chunk_by_sections` (lines 182-219)

The four `re.MULTILINE` heading patterns.  Each anchored matcher returns the
total length of the (first, per the pattern's backtracking order) match at a
line-start position; `match.start()` positions are what the source collects
as boundaries. -/

/-- Index of the first `'\n'`. -/
def findNL : List Char → Option Nat
  | [] => none
  | c :: rest => if c == '\n' then some 0 else (findNL rest).map (· + 1)

/-- The `.+?\n` tail (no DOTALL, so `.` excludes newlines): deterministic —
succeeds iff the first newline is at index ≥ 1, consuming through it. -/
def dotPlusNL (l : List Char) : Option Nat :=
  match l with
  | [] => none
  | c :: _ => if c == '\n' then none else (findNL l).map (· + 1)

/-- The `\s+.+?\n` tail: greedy `\s+` tries the longest whitespace run first
and backtracks to shorter runs. -/
def tailSpaceDot (l : List Char) : Nat → Option Nat
  | 0 => none
  | s + 1 =>
    match dotPlusNL (l.drop (s + 1)) with
    | some k => some ((s + 1) + k)
    | none => tailSpaceDot l s

def spaceDotTail (l : List Char) : Option Nat :=
  tailSpaceDot l ((l.takeWhile isPySpace).length)

/-- `#{1,3}\s+.+?\n` anchored: the greedy counted repetition tries 3, 2, 1
hashes. -/
def hashPartAt (l : List Char) : Option Nat :=
  let tryH := fun (h : Nat) =>
    if (List.replicate h '#').isPrefixOf l then (spaceDotTail (l.drop h)).map (· + h) else none
  ((tryH 3).orElse fun _ => (tryH 2).orElse fun _ => tryH 1)

/-- `\d+\.\s+.+?\n` anchored: the greedy `\d+` is deterministic (any shorter
digit run is followed by a digit, not `.`). -/
def digitPartAt (l : List Char) : Option Nat :=
  let ds := l.takeWhile Char.isDigit
  if ds.isEmpty then none
  else
    match l.drop ds.length with
    | '.' :: _ => (spaceDotTail (l.drop (ds.length + 1))).map (· + (ds.length + 1))
    | _ => none

def isIVX (c : Char) : Bool := c == 'I' || c == 'V' || c == 'X'

/-- `[IVX]+\.\s+.+?\n` anchored (same determinism argument as digits). -/
def romanPartAt (l : List Char) : Option Nat :=
  let ds := l.takeWhile isIVX
  if ds.isEmpty then none
  else
    match l.drop ds.length with
    | '.' :: _ => (spaceDotTail (l.drop (ds.length + 1))).map (· + (ds.length + 1))
    | _ => none

def isUpperAZ (c : Char) : Bool := 'A' ≤ c && c ≤ 'Z'

/-- `[A-Z][A-Z\s]{5,}\n` anchored: the greedy `{5,}` over the class (which
contains `'\n'` itself) ends at the last `'\n'` of the maximal class run at
index ≥ 5 (the character after the maximal run cannot be `'\n'`). -/
def capsPartAt (l : List Char) : Option Nat :=
  match l with
  | [] => none
  | c :: rest =>
    if isUpperAZ c then
      let run := rest.takeWhile (fun x => isUpperAZ x || isPySpace x)
      match ((run.enum.filter (fun p => decide (5 ≤ p.1) && p.2 == '\n')).map Prod.fst).getLast? with
      | some j => some (1 + j + 1)
      | none => none
    else none

/-- The `^\n?` wrapper shared by all four patterns: at a line start, the
greedy `\n?` first tries to consume a leading newline. -/
def withOptNL (f : List Char → Option Nat) (l : List Char) : Option Nat :=
  match l with
  | '\n' :: rest =>
    match f rest with
    | some n => some (n + 1)
    | none => f l
  | _ => f l

/-- `re.finditer` for a `^`-anchored MULTILINE pattern: try the matcher at
position 0 and after every newline; `skip` counts positions still inside the
previous (non-overlapping) match. -/
def finditerLS (m : List Char → Option Nat) : List Char → Nat → Nat → Bool → List Nat
  | [], _, _, _ => []
  | c :: rest, pos, skip, ls =>
    match skip with
    | s + 1 => finditerLS m rest (pos + 1) s (c == '\n')
    | 0 =>
      if ls then
        match m (c :: rest) with
        | some n => pos :: finditerLS m rest (pos + 1) (n - 1) (c == '\n')
        | none => finditerLS m rest (pos + 1) 0 (c == '\n')
      else finditerLS m rest (pos + 1) 0 (c == '\n')

def patternStarts (m : List Char → Option Nat) (content : List Char) : List Nat :=
  finditerLS m content 0 0 true

/-- `sorted(set(...))`. -/
def insertSorted (n : Nat) : List Nat → List Nat
  | [] => [n]
  | m :: rest =>
    if n < m then n :: m :: rest
    else if n == m then m :: rest
    else m :: insertSorted n rest

def dedupSort : List Nat → List Nat
  | [] => []
  | n :: rest => insertSorted n (dedupSort rest)

/-- Lines 195-202: `[0]` plus every pattern-match start, deduplicated and
sorted, with `len(content)` appended afterwards. -/
def section_boundaries (content : List Char) : List Nat :=
  let starts :=
    patternStarts (withOptNL hashPartAt) content
      ++ patternStarts (withOptNL capsPartAt) content
      ++ patternStarts (withOptNL digitPartAt) content
      ++ patternStarts (withOptNL romanPartAt) content
  dedupSort (0 :: starts) ++ [content.length]

/-- The `for i in range(len(boundaries) - 1)` slicing loop (lines 206-217). -/
def chunksFromBoundariesAux (content : List Char) : List Nat → Nat → List PDFChunk
  | b1 :: b2 :: rest, i =>
    let cc := pyStrip (listSliceNat content b1 b2)
    (if 100 < cc.length then [⟨cc, i + 1, i + 1, .sectionMeta⟩] else [])
      ++ chunksFromBoundariesAux content (b2 :: rest) (i + 1)
  | _, _ => []

def chunk_by_sections (content : List Char) : List PDFChunk :=
  let bs := section_boundaries content
  if 2 < bs.length then chunksFromBoundariesAux content bs 0 else []

/-- `PDFProcessor.chunk_document` (lines 109-127). -/
def chunk_document (content : List Char) (cs ov fuel : Nat) : Option (List PDFChunk) :=
  let sectionChunks := chunk_by_sections content
  if 1 < sectionChunks.length then some sectionChunks
  else chunkBySizeFuel fuel content cs ov

/-! ## `PDFProcessor.get_structure_info` (lines 259-297) -/

/-- `^#{1,3}\s+` MULTILINE, anchored matcher (the trailing greedy `\s+` has no
continuation constraint, so it consumes the maximal whitespace run). -/
def hashHeadAt (l : List Char) : Option Nat :=
  let tryH := fun (h : Nat) =>
    if (List.replicate h '#').isPrefixOf l then
      let run := (l.drop h).takeWhile isPySpace
      if run.isEmpty then none else some (h + run.length)
    else none
  ((tryH 3).orElse fun _ => (tryH 2).orElse fun _ => tryH 1)

/-- Unanchored `re.findall` match count. -/
def countAll (m : List Char → Option Nat) : List Char → Nat → Nat
  | [], _ => 0
  | _ :: rest, s + 1 => countAll m rest s
  | l@(_ :: rest), 0 =>
    match m l with
    | some n => 1 + countAll m rest (n - 1)
    | none => countAll m rest 0

/-- `\|.+\|` (no DOTALL): `|`, then at least one non-newline character, then
the last `|` on the same line (greedy `.+` backtracks to the last `|`). -/
def tableRowAt (l : List Char) : Option Nat :=
  match l with
  | '|' :: rest =>
    let lineRun := rest.takeWhile (fun c => c != '\n')
    match ((lineRun.enum.filter (fun p => decide (1 ≤ p.1) && p.2 == '|')).map Prod.fst).getLast? with
    | some j => some (1 + j + 1)
    | none => none
  | _ => none

def fence3 : List Char := ['`', '`', '`']

/-- Index of the first occurrence of `sub`. -/
def firstOccIdx (sub : List Char) : List Char → Option Nat
  | [] => if sub.isEmpty then some 0 else none
  | l@(_ :: rest) => if sub.isPrefixOf l then some 0 else (firstOccIdx sub rest).map (· + 1)

/-- ```` ```[\s\S]*?``` ````: lazy any-character run to the earliest closing
fence. -/
def codeBlockAt (l : List Char) : Option Nat :=
  if fence3.isPrefixOf l then (firstOccIdx fence3 (l.drop 3)).map (fun k => 3 + k + 3) else none

/-- `len(content.split('\f'))`: number of form feeds plus one. -/
def ffCount (l : List Char) : Nat :=
  (l.filter (fun c => c == '\x0c')).length

/-- `len(content.split())`: number of maximal non-whitespace runs. -/
def wordsAux : List Char → Bool → Nat
  | [], _ => 0
  | c :: rest, inw =>
    if isPySpace c then wordsAux rest false
    else (if inw then 0 else 1) + wordsAux rest true

def pyWordsCount (l : List Char) : Nat := wordsAux l false

structure StructureInfo where
  total_pages : Nat
  total_words : Nat
  total_chars : Nat
  sections_detected : Nat
  tables_detected : Nat
  code_blocks_detected : Nat
  avg_words_per_page : Nat
  recommended_chunking : String
deriving DecidableEq, Repr

/-- `get_structure_info`; `int(len(words) / max(page_count, 1))` (float
division truncated with `int`) is modelled as natural division, which agrees
with it whenever the float quotient is exact enough — the claims never depend
on the average's value. -/
def get_structure_info (content : List Char) : StructureInfo :=
  let page_count := ffCount content + 1
  let words := pyWordsCount content
  let sections := (patternStarts hashHeadAt content).length
  { total_pages := page_count
    total_words := words
    total_chars := content.length
    sections_detected := sections
    tables_detected := countAll tableRowAt content 0
    code_blocks_detected := countAll codeBlockAt content 0
    avg_words_per_page := words / max page_count 1
    recommended_chunking := if 5 < sections then "section" else "size" }

/-- `PDFProcessor.create_context_for_rlm` (lines 299-325). -/
def create_context_for_rlm (doc : PDFDocument) : String :=
  let s := get_structure_info doc.content.data
  "# PDF Document: " ++ doc.title
    ++ "\n\n## Document Structure\n- Total pages: " ++ Nat.repr s.total_pages
    ++ "\n- Total words: " ++ commaFmt s.total_words
    ++ "\n- Total characters: " ++ commaFmt s.total_chars
    ++ "\n- Sections detected: " ++ Nat.repr s.sections_detected
    ++ "\n- Tables detected: " ++ Nat.repr s.tables_detected
    ++ "\n- Code blocks: " ++ Nat.repr s.code_blocks_detected
    ++ "\n\n## Full Content\n" ++ doc.content ++ "\n"

/-! ## skill.py — `RLMPDFReader`

The `RLMPDFReader` instance state (lazily-initialized engine and processor)
is threaded explicitly; the module-level singleton returned by `get_skill`
reuses one such state across calls, which is how statistics accumulate
between queries.  PDF extraction (`extract_from_file` / `extract_from_url`)
performs file-system and library I/O and is modelled as an oracle returning
either a document or a raised exception's message. -/

structure EngineSt where
  cfg : RLMConfig
  stats : RLMStats
deriving DecidableEq, Repr

structure ProcCfg where
  chunk_size : Nat
  overlap : Nat
deriving DecidableEq, Repr

structure SkillSt where
  rlm_engine : Option EngineSt
  pdf_processor : Option ProcCfg
deriving DecidableEq, Repr

/-- `RLMPDFReader.__init__`: both components start as `None`. -/
def freshSkill : SkillSt := ⟨none, none⟩

/-- `RLMPDFReader.initialize` (skill.py lines 29-38). -/
def initializedComponents : EngineSt × ProcCfg := (⟨defaultConfig, zeroStats⟩, ⟨10000, 500⟩)

def startsWithHttp (s : String) : Bool :=
  "http://".data.isPrefixOf s.data || "https://".data.isPrefixOf s.data

/-- `if self.rlm_engine is None: self.initialize()` — the engine/processor
pair `process_pdf` runs with. -/
def processComponents (st : SkillSt) : EngineSt × ProcCfg :=
  match st.rlm_engine with
  | none => initializedComponents
  | some e => (e, st.pdf_processor.getD initializedComponents.2)

/-- `RLMPDFReader.process_pdf` (skill.py lines 40-105).  Every exception
raised inside the `try` block (in this embedding: a raising extraction
oracle) is caught and rendered as an error report. -/
def process_pdf (st : SkillSt) (pdf_path query : String) (cli : Option CliTool) (execT : ExecTool)
    (extractFromFile extractFromUrl : String → Except String PDFDocument) : String × SkillSt :=
  match cli with
  | none => ("Error: cli_tool is required for RLM operation", st)
  | some tool =>
    let comps := processComponents st
    let eng := comps.1
    let stInit : SkillSt := ⟨some eng, some comps.2⟩
    match (if startsWithHttp pdf_path then extractFromUrl pdf_path else extractFromFile pdf_path) with
    | .error e => ("Error processing PDF: " ++ e, stInit)
    | .ok doc =>
      let context := create_context_for_rlm doc
      let res := completion eng.cfg eng.stats context query tool execT
      (format_process_result res.1 res.2, ⟨some ⟨eng.cfg, res.2⟩, some comps.2⟩)

/-- `RLMPDFReader.analyze_structure` (skill.py lines 107-148). -/
def analyze_structure (st : SkillSt) (pdf_path : String)
    (extractFromFile : String → Except String PDFDocument) : String × SkillSt :=
  let comps :=
    match st.pdf_processor with
    | none => initializedComponents
    | some p => (st.rlm_engine.getD initializedComponents.1, p)
  let stInit : SkillSt := ⟨some comps.1, some comps.2⟩
  match extractFromFile pdf_path with
  | .error e => ("Error analyzing PDF: " ++ e, stInit)
  | .ok doc =>
    let s := get_structure_info doc.content.data
    ("# PDF Structure Analysis\n\n## Document: " ++ doc.title
      ++ "\n\n### Basic Statistics\n- Total pages: " ++ Nat.repr s.total_pages
      ++ "\n- Total words: " ++ commaFmt s.total_words
      ++ "\n- Total characters: " ++ commaFmt s.total_chars
      ++ "\n\n### Content Detection\n- Sections detected: " ++ Nat.repr s.sections_detected
      ++ "\n- Tables detected: " ++ Nat.repr s.tables_detected
      ++ "\n- Code blocks detected: " ++ Nat.repr s.code_blocks_detected
      ++ "\n\n### Processing Recommendations\n- Average words per page: " ++ commaFmt s.avg_words_per_page
      ++ "\n- Recommended chunking method: " ++ s.recommended_chunking
      ++ "\n\n### Content Preview\n" ++ String.mk (doc.content.data.take 1000) ++ "...\n", stInit)

/-! ## Derived per-slot view of sub-query dispatch -/

/-- What one slot of `_execute_sub_queries` holds, as a function of that
slot's own `cli_tool` outcome. -/
def subEntry (r : CliResp) : String :=
  match r with
  | .exn e => "<error: " ++ e ++ ">"
  | .ok resp => if pyFalsyResp resp then "<no response>" else resp.getD ""

/-! # Supporting lemmas -/

theorem string_append_ne_empty_left (a b : String) (h : a.length ≠ 0) : a ++ b ≠ "" := by
  intro hab
  have := congrArg String.length hab
  rw [String.length_append] at this
  simp at this
  omega

theorem matchFinal1At_prefix {l : List Char} {r : List Char}
    (h : matchFinal1At l = some r) : finalLit.isPrefixOf l = true := by
  unfold matchFinal1At at h
  by_cases hp : finalLit.isPrefixOf l = true
  · exact hp
  · rw [Bool.not_eq_true] at hp
    rw [hp] at h
    simp at h

theorem matchFinal2At_prefix {l : List Char} {r : List Char}
    (h : matchFinal2At l = some r) : finalLit.isPrefixOf l = true := by
  unfold matchFinal2At at h
  by_cases hp : finalLit.isPrefixOf l = true
  · exact hp
  · rw [Bool.not_eq_true] at hp
    rw [hp] at h
    simp at h

/-- A successful `re.search` over a matcher that requires the `FINAL(`
literal yields a decomposition of the text around that literal. -/
theorem searchAux_decomp {f : List Char → Option (List Char)}
    (H : ∀ l r, f l = some r → finalLit.isPrefixOf l = true) :
    ∀ l a, searchAux f l = some a → ∃ u t, l = u ++ finalLit ++ t := by
  intro l
  induction l with
  | nil =>
    intro a h
    simp only [searchAux] at h
    have := H [] a h
    rw [List.isPrefixOf_iff_prefix] at this
    obtain ⟨t, ht⟩ := this
    simp at ht
    exact absurd ht.1 (by decide)
  | cons c rest ih =>
    intro a h
    simp only [searchAux] at h
    cases hf : f (c :: rest) with
    | some r =>
      have := H _ _ hf
      rw [List.isPrefixOf_iff_prefix] at this
      obtain ⟨t, ht⟩ := this
      exact ⟨[], t, by simp [← ht]⟩
    | none =>
      rw [hf] at h
      obtain ⟨u, t, hut⟩ := ih a h
      exact ⟨c :: u, t, by simp [hut]⟩

theorem extract_final_decomp {l a : List Char}
    (h : extract_final_answer l = some a) : ∃ u t, l = u ++ finalLit ++ t := by
  unfold extract_final_answer at h
  cases h1 : searchAux matchFinal1At l with
  | some r =>
    rw [h1] at h
    exact searchAux_decomp (fun _ _ => matchFinal1At_prefix) l r h1
  | none =>
    rw [h1] at h
    exact searchAux_decomp (fun _ _ => matchFinal2At_prefix) l a h

theorem mem_F_of_extract_some {l a : List Char}
    (h : extract_final_answer l = some a) : 'F' ∈ l := by
  obtain ⟨u, t, rfl⟩ := extract_final_decomp h
  have : 'F' ∈ finalLit := by decide
  simp [this]

theorem pyStrip_eq_nil_all_space {l : List Char} (h : pyStrip l = []) :
    ∀ c ∈ l, isPySpace c = true := by
  unfold pyStrip at h
  rw [List.reverse_eq_nil_iff, List.dropWhile_eq_nil_iff] at h
  have hdrop : ∀ c ∈ l.dropWhile isPySpace, isPySpace c = true := by
    intro c hc
    exact h c (by simpa using hc)
  intro c hc
  rw [← List.takeWhile_append_dropWhile (p := isPySpace) (l := l), List.mem_append] at hc
  rcases hc with hc | hc
  · exact List.mem_takeWhile_imp hc
  · exact hdrop c hc

theorem respBlank_false_of_extract {r : String} {a : List Char}
    (h : extract_final_answer r.data = some a) : respBlank (some r) = false := by
  have hF : 'F' ∈ r.data := mem_F_of_extract_some h
  unfold respBlank
  rw [Bool.or_eq_false_iff]
  constructor
  · rw [beq_eq_false_iff_ne]
    intro heq
    subst heq
    simp at hF
  · rw [beq_eq_false_iff_ne]
    intro heq
    have := pyStrip_eq_nil_all_space heq 'F' hF
    simp [isPySpace] at this

/-! # Claims -/

/-- Claim C5: sandbox execution never propagates an exception — a raised
exception becomes an `<execution error: …>` description, a successful run
with empty captured output returns the distinguished non-empty sentinel, a
successful run with non-empty output returns that output, and the result is
never the empty string. -/
theorem execute_repl_code_spec (o : ExecOutcome) (e out : String) :
    (o = .failure e → execute_repl_code o = "<execution error: " ++ e ++ ">")
    ∧ execute_repl_code (.success "") = "<code executed successfully, no output>"
    ∧ (o = .success out → out ≠ "" → execute_repl_code o = out)
    ∧ execute_repl_code o ≠ "" := by
  refine ⟨?_, by decide, ?_, ?_⟩
  · intro h
    subst h
    rfl
  · intro h hne
    subst h
    simp [execute_repl_code, hne]
  · cases o with
    | success s =>
      unfold execute_repl_code
      by_cases hs : s = ""
      · subst hs
        decide
      · simp [hs]
    | failure msg =>
      show "<execution error: " ++ msg ++ ">" ≠ ""
      exact string_append_ne_empty_left "<execution error: " (msg ++ ">") (by decide)

theorem execute_repl_code_spec_witness :
    execute_repl_code (.failure "ZeroDivisionError: division by zero")
        = "<execution error: ZeroDivisionError: division by zero>"
    ∧ execute_repl_code (.success "5 matches found") = "5 matches found"
    ∧ execute_repl_code (.success "") = "<code executed successfully, no output>" :=
  ⟨(execute_repl_code_spec (.failure "ZeroDivisionError: division by zero")
      "ZeroDivisionError: division by zero" "").1 rfl,
   (execute_repl_code_spec (.success "5 matches found") "" "5 matches found").2.2.1 rfl (by decide),
   (execute_repl_code_spec (.success "") "" "").2.1⟩

/-- Claim C2 (amended): intent extraction follows strict priority with
Python truthiness at the code-block test — a recognised `FINAL` call always
yields `FinalAnswer` (code blocks and sub-queries in the same text are not
acted on); with no `FINAL` call, a NON-EMPTY tagged python code block is
acted on even when `llm_query` calls are present; an EMPTY tagged code block
is falsy in the source's `if python_code:` test and falls through, so its
`llm_query` calls are acted on; only when no branch is truthy does the raw
response become the continuation. -/
theorem parse_intent_priority (r : String) (a c q : List Char) (qs : List (List Char)) :
    (extract_final_answer r.data = some a → parse_intent r = .FinalAnswer (String.mk a))
    ∧ (extract_final_answer r.data = none → extract_python_code r.data = some c → c ≠ [] →
        parse_intent r = .CodeBlock (String.mk c))
    ∧ (extract_final_answer r.data = none → extract_python_code r.data = some [] →
        extract_llm_queries r.data = q :: qs →
        parse_intent r = .SubQueries ((q :: qs).map String.mk))
    ∧ (extract_final_answer r.data = none →
        pyTruthyStrOpt (extract_python_code r.data) = false →
        extract_llm_queries r.data = [] → parse_intent r = .Continue r) := by
  unfold parse_intent
  refine ⟨fun h => by rw [h], ?_, ?_, ?_⟩
  · intro h h2 h3
    have hc : pyTruthyStrOpt (some c) = true := by
      cases c with
      | nil => exact absurd rfl h3
      | cons x xs => rfl
    rw [h, h2]
    simp only [hc, if_true, Option.getD_some]
  · intro h h2 h3
    rw [h, h2, if_neg (by simp [pyTruthyStrOpt]), h3]
  · intro h h2 h3
    rw [h, if_neg (by simp [h2]), h3]

def c2textFinal : String := "llm_query(\"part one\") and then FINAL(\"the answer\")"

def c2textCode : String := "```python\nprint(len(context))\n```\nllm_query(\"count words\")"

def c2textEmptyCode : String := "```python\n\n```\nllm_query(\"x\")"

/-- Claim C2 counterexample: in a response holding an EMPTY tagged python
code block and an `llm_query` call (and no `FINAL`), both a tagged code
block and `llm_query` calls are present, yet the code block is NOT acted on:
`_extract_python_code` returns the empty string, `if python_code:` is falsy,
and the source dispatches the sub-queries instead. -/
theorem parse_intent_empty_block_falls_through :
    extract_final_answer c2textEmptyCode.data = none
    ∧ extract_python_code c2textEmptyCode.data = some []
    ∧ extract_llm_queries c2textEmptyCode.data = ["x".data]
    ∧ parse_intent c2textEmptyCode = .SubQueries ["x"] := by
  refine ⟨by decide, by decide, by decide, by decide⟩

theorem parse_intent_priority_witness :
    parse_intent c2textFinal = .FinalAnswer "the answer"
    ∧ parse_intent c2textCode = .CodeBlock "print(len(context))"
    ∧ extract_llm_queries c2textCode.data = ["count words".data]
    ∧ extract_llm_queries c2textFinal.data = ["part one".data]
    ∧ parse_intent c2textEmptyCode = .SubQueries ["x"] := by
  refine ⟨?_, ?_, by decide, by decide, ?_⟩
  · exact (parse_intent_priority c2textFinal "the answer".data [] [] []).1 (by decide)
  · exact (parse_intent_priority c2textCode [] "print(len(context))".data [] []).2.1
      (by decide) (by decide) (by decide)
  · exact (parse_intent_priority c2textEmptyCode [] [] "x".data []).2.2.1
      (by decide) (by decide) (by decide)

/-- Claim C4: sub-query dispatch returns exactly one result per prompt, in
input order; the `i`-th slot is a function of the `i`-th call's own outcome
(an `<error: …>` marker exactly when that call raises), so a fault in one
call affects no other slot and no exception propagates. -/
theorem execute_sub_queries_ordered (qs : List String) (tool : CliTool) (idx : Nat)
    (ctx : String) :
    (execute_sub_queries qs tool idx ctx).results.length = qs.length
    ∧ ∀ i, i < qs.length →
        (execute_sub_queries qs tool idx ctx).results.get? i =
          some (subEntry (tool (idx + i) (sub_prompt ctx (qs.getD i "")) sub_system_prompt)) := by
  induction qs generalizing idx with
  | nil =>
    refine ⟨rfl, ?_⟩
    intro i h
    simp at h
  | cons q rest ih =>
    constructor
    · simp only [execute_sub_queries, List.length_cons]
      rw [← (ih (idx + 1)).1]
    · intro i hi
      cases i with
      | zero =>
        simp only [execute_sub_queries, List.get?_cons_zero, Nat.add_zero, List.getD_cons_zero]
        cases htool : tool idx (sub_prompt ctx q) sub_system_prompt with
        | exn e => simp [subEntry]
        | ok resp =>
          simp only [subEntry]
          split <;> simp [*]
      | succ j =>
        have hidx : idx + (j + 1) = (idx + 1) + j := by omega
        simp only [execute_sub_queries, List.get?_cons_succ, List.getD_cons_succ, hidx]
        exact (ih (idx + 1)).2 j (by simpa using hi)

def c4tool : CliTool := fun n _ _ =>
  if n = 1 then .exn "boom" else .ok (some ("R" ++ Nat.repr n))

theorem execute_sub_queries_ordered_witness :
    (execute_sub_queries ["alpha", "beta", "gamma"] c4tool 0 "ctx").results.length = 3
    ∧ (execute_sub_queries ["alpha", "beta", "gamma"] c4tool 0 "ctx").results.get? 0 = some "R0"
    ∧ (execute_sub_queries ["alpha", "beta", "gamma"] c4tool 0 "ctx").results.get? 1
        = some "<error: boom>"
    ∧ (execute_sub_queries ["alpha", "beta", "gamma"] c4tool 0 "ctx").results.get? 2 = some "R2" := by
  refine ⟨(execute_sub_queries_ordered ["alpha", "beta", "gamma"] c4tool 0 "ctx").1, ?_, ?_, ?_⟩
  · rw [(execute_sub_queries_ordered ["alpha", "beta", "gamma"] c4tool 0 "ctx").2 0 (by decide)]
    decide
  · rw [(execute_sub_queries_ordered ["alpha", "beta", "gamma"] c4tool 0 "ctx").2 1 (by decide)]
    decide
  · rw [(execute_sub_queries_ordered ["alpha", "beta", "gamma"] c4tool 0 "ctx").2 2 (by decide)]
    decide

/-! # Statistics accumulation (claim C9) -/

/-- Add prior counter values onto a run's counters; `iterations` is the
run's own (it is the only field `completion` resets). -/
def statsMerge (prior run : RLMStats) : RLMStats :=
  ⟨prior.root_calls + run.root_calls, prior.sub_calls + run.sub_calls,
   prior.root_tokens + run.root_tokens, prior.sub_tokens + run.sub_tokens, run.iterations⟩

theorem completionStep_merge (cfg : RLMConfig) (ctx : String) (tool : CliTool) (execT : ExecTool)
    (p : RLMStats) (st : LoopSt) :
    completionStep cfg ctx tool execT { st with stats := statsMerge p st.stats } =
      match completionStep cfg ctx tool execT st with
      | .error (a, s) => .error (a, statsMerge p s)
      | .ok st' => .ok { st' with stats := statsMerge p st'.stats } := by
  unfold completionStep
  cases htool : tool st.callIdx st.userMsg rlm_system_prompt with
  | exn e => simp [bumpStats, statsMerge, Nat.add_assoc]
  | ok resp =>
    by_cases hb : respBlank resp = true
    · simp [hb, bumpStats, statsMerge, Nat.add_assoc]
    · rw [Bool.not_eq_true] at hb
      simp only [hb, Bool.false_eq_true, if_false]
      cases hfin : extract_final_answer (resp.getD "").data with
      | some a => simp [bumpStats, statsMerge, Nat.add_assoc]
      | none =>
        by_cases hpy : pyTruthyStrOpt (extract_python_code (resp.getD "").data) = true
        · simp [hpy, bumpStats, statsMerge, Nat.add_assoc]
        · rw [Bool.not_eq_true] at hpy
          simp only [hpy, Bool.false_eq_true, if_false]
          cases hq : extract_llm_queries (resp.getD "").data with
          | nil => simp [bumpStats, statsMerge, Nat.add_assoc]
          | cons q qs => simp [bumpStats, statsMerge, Nat.add_assoc]

theorem completionLoop_merge (cfg : RLMConfig) (ctx : String) (tool : CliTool) (execT : ExecTool)
    (p : RLMStats) :
    ∀ fuel st, completionLoop cfg ctx tool execT fuel { st with stats := statsMerge p st.stats } =
      ((completionLoop cfg ctx tool execT fuel st).1,
        statsMerge p (completionLoop cfg ctx tool execT fuel st).2) := by
  intro fuel
  induction fuel with
  | zero => intro st; rfl
  | succ f ih =>
    intro st
    simp only [completionLoop]
    rw [completionStep_merge]
    cases h : completionStep cfg ctx tool execT st with
    | error pr => cases pr; rfl
    | ok st' => exact ih st'

/-- Claim C9: at the start of `completion` only `stats.iterations` is reset
to 0; the other four counters keep their prior values, so a reused engine's
run reports the prior `root_calls`, `sub_calls`, `root_tokens` and
`sub_tokens` added to the fresh run's counts (and the same answer a fresh
engine would produce), while `iterations` reflects only the fresh run. -/
theorem completion_stats_accumulate (cfg : RLMConfig) (s : RLMStats) (ctx q : String)
    (tool : CliTool) (execT : ExecTool) :
    completion cfg s ctx q tool execT =
      ((completion cfg zeroStats ctx q tool execT).1,
       statsMerge s (completion cfg zeroStats ctx q tool execT).2) := by
  unfold completion
  have h0 : initLoopSt s ctx q =
      { initLoopSt zeroStats ctx q with stats := statsMerge s (initLoopSt zeroStats ctx q).stats } := by
    simp [initLoopSt, statsMerge, zeroStats]
  rw [h0, completionLoop_merge]

/-! # Loop convergence and exhaustion (claim C1) -/

theorem completionStep_final (cfg : RLMConfig) (ctx : String) (tool : CliTool)
    (execT : ExecTool) (st : LoopSt) (r : String) (a : List Char)
    (h1 : tool st.callIdx st.userMsg rlm_system_prompt = .ok (some r))
    (h2 : extract_final_answer r.data = some a) :
    completionStep cfg ctx tool execT st = .error (String.mk a, bumpStats st.stats) := by
  unfold completionStep
  simp only [h1, respBlank_false_of_extract h2, Bool.false_eq_true, if_false, Option.getD_some, h2]

theorem completionStep_no_final (cfg : RLMConfig) (ctx : String) (tool : CliTool)
    (execT : ExecTool)
    (H : ∀ n p s r, tool n p s = .ok (some r) → extract_final_answer r.data = none)
    (st : LoopSt) :
    ∃ st', completionStep cfg ctx tool execT st = .ok st'
      ∧ st'.stats.root_calls = st.stats.root_calls + 1
      ∧ st'.stats.iterations = st.stats.iterations + 1 := by
  unfold completionStep
  cases htool : tool st.callIdx st.userMsg rlm_system_prompt with
  | exn e => exact ⟨_, rfl, rfl, rfl⟩
  | ok resp =>
    by_cases hb : respBlank resp = true
    · simp only [hb, if_true]
      exact ⟨_, rfl, rfl, rfl⟩
    · rw [Bool.not_eq_true] at hb
      simp only [hb, Bool.false_eq_true, if_false]
      have hresp : resp = some (resp.getD "") := by
        cases resp with
        | none => simp [respBlank] at hb
        | some r => rfl
      have hfin : extract_final_answer (resp.getD "").data = none :=
        H st.callIdx st.userMsg rlm_system_prompt (resp.getD "") (by rw [← hresp]; exact htool)
      rw [hfin]
      by_cases hpy : pyTruthyStrOpt (extract_python_code (resp.getD "").data) = true
      · simp only [hpy, if_true]
        exact ⟨_, rfl, rfl, rfl⟩
      · rw [Bool.not_eq_true] at hpy
        simp only [hpy, Bool.false_eq_true, if_false]
        cases hq : extract_llm_queries (resp.getD "").data with
        | nil => exact ⟨_, rfl, rfl, rfl⟩
        | cons q qs => exact ⟨_, rfl, rfl, rfl⟩

theorem completionLoop_no_final (cfg : RLMConfig) (ctx : String) (tool : CliTool)
    (execT : ExecTool)
    (H : ∀ n p s r, tool n p s = .ok (some r) → extract_final_answer r.data = none) :
    ∀ fuel st, (completionLoop cfg ctx tool execT fuel st).1 = none
      ∧ (completionLoop cfg ctx tool execT fuel st).2.root_calls = st.stats.root_calls + fuel
      ∧ (completionLoop cfg ctx tool execT fuel st).2.iterations = st.stats.iterations + fuel := by
  intro fuel
  induction fuel with
  | zero => intro st; exact ⟨rfl, rfl, rfl⟩
  | succ f ih =>
    intro st
    obtain ⟨st', hstep, hrc, hit⟩ := completionStep_no_final cfg ctx tool execT H st
    simp only [completionLoop, hstep]
    obtain ⟨h1, h2, h3⟩ := ih st'
    exact ⟨h1, by rw [h2, hrc]; omega, by rw [h3, hit]; omega⟩

/-- Claim C1: on a fresh engine, a first response with a recognisable
`FINAL` call makes `completion` return that answer after exactly one
iteration with `root_calls = 1` and `sub_calls = 0`; a reasoning callable
none of whose responses contain a recognisable `FINAL` call drives the loop
through exactly `max_iterations` root calls, `completion` returns `None`,
and `process_pdf` renders the "did not converge" report instead of partial
content. -/
theorem completion_convergence_and_exhaustion (cfg : RLMConfig) (ctx query : String)
    (tool : CliTool) (execT : ExecTool) :
    (∀ (r : String) (a : List Char),
        tool 0 (initial_user_message ctx query) rlm_system_prompt = .ok (some r) →
        extract_final_answer r.data = some a → 1 ≤ cfg.max_iterations →
        completion cfg zeroStats ctx query tool execT = (some (String.mk a), ⟨1, 0, 0, 0, 1⟩))
    ∧ ((∀ n p s r, tool n p s = .ok (some r) → extract_final_answer r.data = none) →
        (completion cfg zeroStats ctx query tool execT).1 = none
        ∧ (completion cfg zeroStats ctx query tool execT).2.root_calls = cfg.max_iterations
        ∧ (completion cfg zeroStats ctx query tool execT).2.iterations = cfg.max_iterations
        ∧ format_process_result (completion cfg zeroStats ctx query tool execT).1
            (completion cfg zeroStats ctx query tool execT).2
            = "RLM analysis did not converge within max iterations.")
    ∧ (∀ (st : SkillSt) (path : String) (doc : PDFDocument)
          (exF exU : String → Except String PDFDocument),
        (∀ n p s r, tool n p s = .ok (some r) → extract_final_answer r.data = none) →
        startsWithHttp path = false → exF path = .ok doc → st.rlm_engine = none →
        (process_pdf st path query (some tool) execT exF exU).1
          = "RLM analysis did not converge within max iterations.") := by
  refine ⟨?_, ?_, ?_⟩
  · intro r a h1 h2 h3
    obtain ⟨k, hk⟩ : ∃ k, cfg.max_iterations = k + 1 := ⟨cfg.max_iterations - 1, by omega⟩
    unfold completion
    rw [hk]
    simp only [completionLoop]
    rw [completionStep_final cfg ctx tool execT _ r a h1 h2]
    rfl
  · intro H
    have h := completionLoop_no_final cfg ctx tool execT H cfg.max_iterations
      (initLoopSt zeroStats ctx query)
    unfold completion
    refine ⟨h.1, ?_, ?_, ?_⟩
    · rw [h.2.1]
      simp [initLoopSt, zeroStats]
    · rw [h.2.2]
      simp [initLoopSt, zeroStats]
    · rw [h.1]
      rfl
  · intro st path doc exF exU H hhttp hex heng
    have h := completionLoop_no_final defaultConfig (create_context_for_rlm doc) tool execT H
      defaultConfig.max_iterations (initLoopSt zeroStats (create_context_for_rlm doc) query)
    simp only [process_pdf, processComponents, heng, hhttp, Bool.false_eq_true, if_false,
      initializedComponents, hex, completion]
    rw [h.1]
    rfl

def c1toolFinal : CliTool := fun _ _ _ => .ok (some "FINAL(\"x\")")

def c1toolNever : CliTool := fun _ _ _ => .ok (some "keep going")

def c1execT : ExecTool := fun _ _ => .success ""

def c1doc : PDFDocument := ⟨"paper", "", "short document body.", 1⟩

theorem c1toolNever_no_final :
    ∀ n p s r, c1toolNever n p s = .ok (some r) → extract_final_answer r.data = none := by
  intro n p s r hr
  have hr' : CliResp.ok (some "keep going") = CliResp.ok (some r) := hr
  injection hr' with h1
  injection h1 with h2
  rw [← h2]
  decide

theorem completion_convergence_witness :
    completion ⟨2, 500000⟩ zeroStats "doc" "q" c1toolFinal c1execT = (some "x", ⟨1, 0, 0, 0, 1⟩)
    ∧ (completion ⟨2, 500000⟩ zeroStats "doc" "q" c1toolNever c1execT).1 = none
    ∧ (completion ⟨2, 500000⟩ zeroStats "doc" "q" c1toolNever c1execT).2.root_calls = 2
    ∧ (process_pdf freshSkill "a.pdf" "q" (some c1toolNever) c1execT
        (fun _ => .ok c1doc) (fun _ => .ok c1doc)).1
        = "RLM analysis did not converge within max iterations." := by
  refine ⟨?_, ?_, ?_, ?_⟩
  · exact (completion_convergence_and_exhaustion ⟨2, 500000⟩ "doc" "q" c1toolFinal c1execT).1
      "FINAL(\"x\")" "x".data rfl (by decide) (by decide)
  · exact ((completion_convergence_and_exhaustion ⟨2, 500000⟩ "doc" "q" c1toolNever c1execT).2.1
      c1toolNever_no_final).1
  · exact ((completion_convergence_and_exhaustion ⟨2, 500000⟩ "doc" "q" c1toolNever c1execT).2.1
      c1toolNever_no_final).2.1
  · exact (completion_convergence_and_exhaustion ⟨2, 500000⟩ "doc" "q" c1toolNever c1execT).2.2
      freshSkill "a.pdf" c1doc (fun _ => .ok c1doc) (fun _ => .ok c1doc)
      c1toolNever_no_final (by decide) rfl rfl

/-! # Structure of successful `FINAL` matches (claims C7, C10) -/

theorem takeWhile_append_of_all {p : Char → Bool} (l1 : List Char) (c : Char) (l2 : List Char)
    (h1 : ∀ x ∈ l1, p x = true) (hc : p c = false) :
    (l1 ++ c :: l2).takeWhile p = l1 ∧ (l1 ++ c :: l2).dropWhile p = c :: l2 := by
  induction l1 with
  | nil => simp [List.takeWhile, List.dropWhile, hc]
  | cons a t ih =>
    have ha : p a = true := h1 a (by simp)
    have iht := ih (fun x hx => h1 x (by simp [hx]))
    simp [List.takeWhile, List.dropWhile, ha, iht.1, iht.2]

theorem searchAux_head_some {f : List Char → Option (List Char)} {l r : List Char}
    (h : f l = some r) : searchAux f l = some r := by
  cases l with
  | nil => simpa [searchAux] using h
  | cons c t => simp [searchAux, h]

theorem searchAux_cons_none {f : List Char → Option (List Char)} {c : Char} {t : List Char}
    (h : f (c :: t) = none) : searchAux f (c :: t) = searchAux f t := by
  simp [searchAux, h]

/-- Skipping a prefix at whose positions no `FINAL(` literal starts, for a
matcher that requires that literal. -/
theorem searchAux_append_skip {f : List Char → Option (List Char)}
    (H : ∀ l r, f l = some r → finalLit.isPrefixOf l = true) :
    ∀ (pre rest : List Char),
      (∀ p, p < pre.length → finalLit.isPrefixOf ((pre ++ rest).drop p) = false) →
      searchAux f (pre ++ rest) = searchAux f rest := by
  intro pre
  induction pre with
  | nil => intro rest _; rfl
  | cons c pre' ih =>
    intro rest h
    have hf : f (c :: (pre' ++ rest)) = none := by
      cases hfc : f (c :: (pre' ++ rest)) with
      | none => rfl
      | some r =>
        have hpref := H _ _ hfc
        have h0 := h 0 (by simp)
        simp only [List.drop_zero, List.cons_append] at h0
        rw [h0] at hpref
        exact absurd hpref (by simp)
    rw [List.cons_append, searchAux_cons_none hf]
    apply ih
    intro p hp
    have := h (p + 1) (by simp only [List.length_cons]; omega)
    simpa using this

/-- The full shape of a response text around one `FINAL(q·ans·q·)` call. -/
def finalCallText (pre : List Char) (q : Char) (ans post : List Char) : List Char :=
  pre ++ (finalLit ++ (q :: (ans ++ q :: ')' :: post)))

theorem quotedRun_exact (ans post : List Char) (q : Char) (hq : isQuote q = true)
    (hne : ans ≠ []) (hansq : ∀ c ∈ ans, isQuote c = false) :
    quotedRun (ans ++ q :: ')' :: post) = some ans := by
  unfold quotedRun
  have htd := takeWhile_append_of_all (p := fun c => !(isQuote c)) ans q (')' :: post)
    (fun x hx => by simp [hansq x hx]) (by simp [hq])
  rw [htd.1, htd.2]
  simp [quotedTail, hq, hne]

theorem matchFinal1At_exact (ans post : List Char) (q : Char) (hq : isQuote q = true)
    (hne : ans ≠ []) (hansq : ∀ c ∈ ans, isQuote c = false) :
    matchFinal1At (finalLit ++ (q :: (ans ++ q :: ')' :: post))) = some ans := by
  unfold matchFinal1At
  rw [if_pos (by rw [List.isPrefixOf_iff_prefix]; exact ⟨_, rfl⟩)]
  rw [show (6 : Nat) = finalLit.length from rfl, List.drop_left]
  simp only [afterLit1]
  rw [if_pos hq]
  exact quotedRun_exact ans post q hq hne hansq

/-- Claim C7 (amended): for a response of the form `pre + FINAL(q·ans·q·)` +
post` where `ans` is non-empty and contains no quote characters and no
`FINAL(` occurrence starts inside `pre`, the extracted answer is exactly
`ans`, verbatim — internal whitespace and embedded newlines included (the
`[^"\']` class matches them). -/
theorem extract_final_answer_verbatim (pre ans post : List Char) (q : Char)
    (hq : isQuote q = true) (hne : ans ≠ []) (hansq : ∀ c ∈ ans, isQuote c = false)
    (hpre : ∀ p, p < pre.length →
      finalLit.isPrefixOf ((finalCallText pre q ans post).drop p) = false) :
    extract_final_answer (finalCallText pre q ans post) = some ans := by
  unfold finalCallText at hpre ⊢
  have hsearch : searchAux matchFinal1At
      (pre ++ (finalLit ++ (q :: (ans ++ q :: ')' :: post)))) = some ans := by
    rw [searchAux_append_skip (f := matchFinal1At) (fun _ _ => matchFinal1At_prefix) pre
      (finalLit ++ (q :: (ans ++ q :: ')' :: post))) hpre]
    exact searchAux_head_some (matchFinal1At_exact ans post q hq hne hansq)
  unfold extract_final_answer
  rw [hsearch]

/-- Claim C7 counterexample: in `FINAL("a') b")` the double-quoted argument
is `a') b`, but the first pattern's greedy non-quote class stops at the
embedded single quote and extraction returns just `a` — the quoted answer is
not extracted verbatim for arbitrary characters. -/
theorem extract_final_answer_truncates :
    extract_final_answer (finalCallText [] '"' ("a".data ++ '\'' :: ") b".data) [])
        = some "a".data
    ∧ "a".data ≠ "a".data ++ '\'' :: ") b".data := by
  constructor
  · decide
  · decide

theorem extract_final_answer_verbatim_witness :
    extract_final_answer (finalCallText "Result: ".data '"' "done now".data " tail".data)
      = some "done now".data :=
  extract_final_answer_verbatim "Result: ".data "done now".data " tail".data '"'
    (by decide) (by decide) (by decide) (by decide)

/-! ## Two-quote structure of any successful match (claim C10) -/

theorem quotedRun_decomp {rest r : List Char} (h : quotedRun rest = some r) :
    ∃ qb w, rest = r ++ qb :: w ∧ isQuote qb = true ∧ r ≠ [] := by
  unfold quotedRun at h
  cases hd : rest.dropWhile (fun c => !(isQuote c)) with
  | nil => rw [hd] at h; simp [quotedTail] at h
  | cons q2 l1 =>
    rw [hd] at h
    cases l1 with
    | nil => simp [quotedTail] at h
    | cons c2 w =>
      simp only [quotedTail] at h
      by_cases hc : (isQuote q2 && (c2 == ')')
          && !((rest.takeWhile (fun c => !(isQuote c))).isEmpty)) = true
      · rw [if_pos hc] at h
        injection h with hr
        simp only [Bool.and_eq_true] at hc
        refine ⟨q2, c2 :: w, ?_, hc.1.1, ?_⟩
        · conv_lhs => rw [← List.takeWhile_append_dropWhile
            (p := fun c => !(isQuote c)) (l := rest)]
          rw [hd, hr]
        · have hne := hc.2
          rw [← hr]
          intro hnil
          rw [hnil] at hne
          simp at hne
      · rw [if_neg hc] at h
        simp at h

theorem matchFinal1At_two_quotes {l r : List Char} (h : matchFinal1At l = some r) :
    ∃ u qa mid qb w, l = u ++ qa :: (mid ++ qb :: w)
      ∧ isQuote qa = true ∧ isQuote qb = true ∧ mid ≠ [] := by
  have hp := matchFinal1At_prefix h
  obtain ⟨t, rfl⟩ := List.isPrefixOf_iff_prefix.mp hp
  unfold matchFinal1At at h
  rw [if_pos hp, show (6 : Nat) = finalLit.length from rfl, List.drop_left] at h
  cases t with
  | nil => simp [afterLit1] at h
  | cons q rest =>
    simp only [afterLit1] at h
    by_cases hq : isQuote q = true
    · rw [if_pos hq] at h
      obtain ⟨qb, w, hrest, hqb, hne⟩ := quotedRun_decomp h
      exact ⟨finalLit, q, r, qb, w, by rw [hrest], hq, hqb, hne⟩
    · rw [if_neg hq] at h
      simp at h

theorem lazyFinal2_decomp :
    ∀ (body acc r : List Char), lazyFinal2 body acc = some r →
      ∃ inner q2 tail, body = inner ++ q2 :: tail ∧ isQuote q2 = true ∧ inner ≠ [] := by
  intro body
  induction body with
  | nil => intro acc r h; simp [lazyFinal2] at h
  | cons c rest ih =>
    intro acc r h
    cases rest with
    | nil => simp [lazyFinal2] at h
    | cons q2 tail =>
      simp only [lazyFinal2] at h
      by_cases hcond : (isQuote q2 && closeAfterSpaces tail) = true
      · refine ⟨[c], q2, tail, rfl, ?_, by simp⟩
        simp only [Bool.and_eq_true] at hcond
        exact hcond.1
      · rw [if_neg hcond] at h
        obtain ⟨inner, q2', tail', heq, hq', hne⟩ := ih _ _ h
        exact ⟨c :: inner, q2', tail', by simp [heq], hq', by simp⟩

theorem matchFinal2At_two_quotes {l r : List Char} (h : matchFinal2At l = some r) :
    ∃ u qa mid qb w, l = u ++ qa :: (mid ++ qb :: w)
      ∧ isQuote qa = true ∧ isQuote qb = true ∧ mid ≠ [] := by
  have hp := matchFinal2At_prefix h
  obtain ⟨t, rfl⟩ := List.isPrefixOf_iff_prefix.mp hp
  unfold matchFinal2At at h
  rw [if_pos hp, show (6 : Nat) = finalLit.length from rfl, List.drop_left] at h
  cases hd : t.dropWhile isPySpace with
  | nil => rw [hd] at h; simp [afterSpaces] at h
  | cons q rest =>
    rw [hd] at h
    simp only [afterSpaces] at h
    by_cases hq : isQuote q = true
    · rw [if_pos hq] at h
      obtain ⟨inner, q2, tail, hbody, hq2, hinner⟩ := lazyFinal2_decomp rest [] r h
      refine ⟨finalLit ++ t.takeWhile isPySpace, q, inner, q2, tail, ?_, hq, hq2, hinner⟩
      conv_lhs => rw [← List.takeWhile_append_dropWhile (p := isPySpace) (l := t), hd, hbody]
      simp [List.append_assoc]
    · rw [if_neg hq] at h
      simp at h

theorem extract_final_two_quotes {l a : List Char} (h : extract_final_answer l = some a) :
    ∃ u qa mid qb w, l = u ++ qa :: (mid ++ qb :: w)
      ∧ isQuote qa = true ∧ isQuote qb = true ∧ mid ≠ [] := by
  have transport : ∀ (f : List Char → Option (List Char)),
      (∀ l' r', f l' = some r' → ∃ u qa mid qb w, l' = u ++ qa :: (mid ++ qb :: w)
        ∧ isQuote qa = true ∧ isQuote qb = true ∧ mid ≠ []) →
      ∀ l' a', searchAux f l' = some a' → ∃ u qa mid qb w, l' = u ++ qa :: (mid ++ qb :: w)
        ∧ isQuote qa = true ∧ isQuote qb = true ∧ mid ≠ [] := by
    intro f H l'
    induction l' with
    | nil =>
      intro a' h'
      simp only [searchAux] at h'
      exact H [] a' h'
    | cons c t ih =>
      intro a' h'
      simp only [searchAux] at h'
      cases hf : f (c :: t) with
      | some r => exact H _ _ hf
      | none =>
        rw [hf] at h'
        obtain ⟨u, qa, mid, qb, w, heq, h1, h2, h3⟩ := ih a' h'
        exact ⟨c :: u, qa, mid, qb, w, by simp [heq], h1, h2, h3⟩
  unfold extract_final_answer at h
  cases h1 : searchAux matchFinal1At l with
  | some r =>
    exact transport matchFinal1At (fun _ _ => matchFinal1At_two_quotes) l r h1
  | none =>
    rw [h1] at h
    exact transport matchFinal2At (fun _ _ => matchFinal2At_two_quotes) l a h

/-- Two decompositions of one text around two quote characters, all other
characters between and before the quotes being non-quotes, have middles of
equal length. -/
theorem quote_mid_len :
    ∀ (mid1 w1 mid2 w2 : List Char) (qb1 qb2 : Char),
      mid1 ++ qb1 :: w1 = mid2 ++ qb2 :: w2 →
      (∀ c ∈ mid1, isQuote c = false) → (∀ c ∈ mid2, isQuote c = false) →
      isQuote qb1 = true → isQuote qb2 = true → mid1.length = mid2.length := by
  intro mid1
  induction mid1 with
  | nil =>
    intro w1 mid2 w2 qb1 qb2 heq h1 h2 hq1 hq2
    cases mid2 with
    | nil => rfl
    | cons c m2 =>
      simp only [List.nil_append, List.cons_append] at heq
      have hc : qb1 = c := by injection heq
      have := h2 c (by simp)
      rw [← hc, hq1] at this
      exact absurd this (by simp)
  | cons c m1 ih =>
    intro w1 mid2 w2 qb1 qb2 heq h1 h2 hq1 hq2
    cases mid2 with
    | nil =>
      simp only [List.cons_append, List.nil_append] at heq
      have hc : c = qb2 := by injection heq
      have := h1 c (by simp)
      rw [hc, hq2] at this
      exact absurd this (by simp)
    | cons c2 m2 =>
      simp only [List.cons_append] at heq
      have htail : m1 ++ qb1 :: w1 = m2 ++ qb2 :: w2 := by injection heq
      have := ih w1 m2 w2 qb1 qb2 htail (fun x hx => h1 x (by simp [hx]))
        (fun x hx => h2 x (by simp [hx])) hq1 hq2
      simp [this]

theorem quote_split_len :
    ∀ (u1 : List Char) mid1 w1 u2 mid2 w2 (qa1 qb1 qa2 qb2 : Char),
      u1 ++ qa1 :: (mid1 ++ qb1 :: w1) = u2 ++ qa2 :: (mid2 ++ qb2 :: w2) →
      (∀ c ∈ u1, isQuote c = false) → (∀ c ∈ mid1, isQuote c = false) →
      (∀ c ∈ u2, isQuote c = false) → (∀ c ∈ mid2, isQuote c = false) →
      isQuote qa1 = true → isQuote qb1 = true → isQuote qa2 = true → isQuote qb2 = true →
      mid1.length = mid2.length := by
  intro u1
  induction u1 with
  | nil =>
    intro mid1 w1 u2 mid2 w2 qa1 qb1 qa2 qb2 heq hu1 hm1 hu2 hm2 ha1 hb1 ha2 hb2
    cases u2 with
    | nil =>
      simp only [List.nil_append] at heq
      have htail : mid1 ++ qb1 :: w1 = mid2 ++ qb2 :: w2 := by injection heq
      exact quote_mid_len mid1 w1 mid2 w2 qb1 qb2 htail hm1 hm2 hb1 hb2
    | cons c t =>
      simp only [List.nil_append, List.cons_append] at heq
      have hc : qa1 = c := by injection heq
      have := hu2 c (by simp)
      rw [← hc, ha1] at this
      exact absurd this (by simp)
  | cons c t ih =>
    intro mid1 w1 u2 mid2 w2 qa1 qb1 qa2 qb2 heq hu1 hm1 hu2 hm2 ha1 hb1 ha2 hb2
    cases u2 with
    | nil =>
      simp only [List.cons_append, List.nil_append] at heq
      have hc : c = qa2 := by injection heq
      have := hu1 c (by simp)
      rw [hc, ha2] at this
      exact absurd this (by simp)
    | cons c2 t2 =>
      simp only [List.cons_append] at heq
      have htail : t ++ qa1 :: (mid1 ++ qb1 :: w1) = t2 ++ qa2 :: (mid2 ++ qb2 :: w2) := by
        injection heq
      exact ih mid1 w1 t2 mid2 w2 qa1 qb1 qa2 qb2 htail
        (fun x hx => hu1 x (by simp [hx])) hm1 (fun x hx => hu2 x (by simp [hx])) hm2
        ha1 hb1 ha2 hb2

theorem finalLit_no_quote : ∀ c ∈ finalLit, isQuote c = false := by decide

/-- Claim C10: a `FINAL` call whose quoted argument is the empty string, in a
response containing no other quote characters, is not recognised — extraction
returns nothing, and the parsed intent is never `FinalAnswer`, so the loop
keeps iterating instead of converging on an empty answer. -/
theorem final_empty_not_recognized (pre post : List Char) (q : Char)
    (hq : isQuote q = true)
    (hpre : ∀ c ∈ pre, isQuote c = false)
    (hpost : ∀ c ∈ post, isQuote c = false) :
    extract_final_answer (finalCallText pre q [] post) = none
    ∧ ∀ a, parse_intent (String.mk (finalCallText pre q [] post)) ≠ .FinalAnswer a := by
  have hnone : extract_final_answer (finalCallText pre q [] post) = none := by
    cases hex : extract_final_answer (finalCallText pre q [] post) with
    | none => rfl
    | some a =>
      exfalso
      obtain ⟨u, qa, mid, qb, w, heq, hqa, hqb, hmid⟩ := extract_final_two_quotes hex
      have hcountB : (finalCallText pre q [] post).countP (fun c => isQuote c) = 2 := by
        simp only [finalCallText, List.nil_append, List.countP_append, List.countP_cons, hq]
        rw [List.countP_eq_zero.mpr ?hp, List.countP_eq_zero.mpr ?hf,
          List.countP_eq_zero.mpr ?hpo]
        case hp => intro c hc; simp [hpre c hc]
        case hf => intro c hc; simp [finalLit_no_quote c hc]
        case hpo => intro c hc; simp [hpost c hc]
        simp [isQuote]
      have hcountA : (u ++ qa :: (mid ++ qb :: w)).countP (fun c => isQuote c)
          = u.countP (fun c => isQuote c) + mid.countP (fun c => isQuote c)
            + w.countP (fun c => isQuote c) + 2 := by
        simp only [List.countP_append, List.countP_cons, hqa, hqb]
        simp
        omega
      rw [heq, hcountA] at hcountB
      have humq : ∀ c ∈ u, isQuote c = false := by
        intro c hc
        have := List.countP_eq_zero.mp
          (by omega : u.countP (fun c => isQuote c) = 0) c hc
        simpa using this
      have hmidq : ∀ c ∈ mid, isQuote c = false := by
        intro c hc
        have := List.countP_eq_zero.mp
          (by omega : mid.countP (fun c => isQuote c) = 0) c hc
        simpa using this
      have halign : u ++ qa :: (mid ++ qb :: w)
          = (pre ++ finalLit) ++ q :: (([] : List Char) ++ q :: (')' :: post)) := by
        rw [← heq]
        simp [finalCallText, List.append_assoc]
      have hlen := quote_split_len u mid w (pre ++ finalLit) [] (')' :: post) qa qb q q
        halign humq hmidq
        (by
          intro c hc
          rcases List.mem_append.mp hc with hc | hc
          · exact hpre c hc
          · exact finalLit_no_quote c hc)
        (by intro c hc; simp at hc)
        hqa hqb hq hq
      rw [List.length_nil] at hlen
      exact hmid (List.length_eq_zero.mp hlen)
  refine ⟨hnone, ?_⟩
  intro a hcontra
  unfold parse_intent at hcontra
  rw [show (String.mk (finalCallText pre q [] post)).data = finalCallText pre q [] post
    from rfl, hnone] at hcontra
  by_cases hpy : pyTruthyStrOpt (extract_python_code (finalCallText pre q [] post)) = true
  · rw [if_pos hpy] at hcontra
    simp at hcontra
  · rw [if_neg hpy] at hcontra
    cases hq2 : extract_llm_queries (finalCallText pre q [] post) with
    | nil => rw [hq2] at hcontra; simp at hcontra
    | cons x xs => rw [hq2] at hcontra; simp at hcontra

theorem final_empty_not_recognized_witness :
    extract_final_answer (finalCallText "Answer: ".data '"' [] " done".data) = none :=
  (final_empty_not_recognized "Answer: ".data " done".data '"'
    (by decide) (by decide) (by decide)).1

/-! # Size-based chunking termination (claim C6) -/

/-- `ceil(a / b)` on naturals. -/
def ceilDivNat (a b : Nat) : Nat := (a + b - 1) / b

theorem le_ceilDivNat_mul (a b : Nat) (hb : 0 < b) : a ≤ ceilDivNat a b * b := by
  unfold ceilDivNat
  have hdm := Nat.div_add_mod (a + b - 1) b
  have hlt := Nat.mod_lt (a + b - 1) hb
  generalize hq : (a + b - 1) / b = qv at hdm
  generalize hr : (a + b - 1) % b = rv at hdm hlt
  rw [Nat.mul_comm] at hdm
  generalize hM : qv * b = M at hdm ⊢
  omega

/-- Every computed window end is at least `start + min(cs, cs/2 + 2)`: the
naive cut advances by `cs`, sentence snapping lands strictly past the
midpoint (so at `start + cs/2 + 2` or later), paragraph snapping one later
still. -/
theorem chunkEnd_ge (cs : Nat) (content : List Char) (start : Int) :
    start + ((min cs (cs / 2 + 2) : Nat) : Int) ≤ chunkEnd cs content start := by
  unfold chunkEnd
  dsimp only
  split
  · split
    · push_cast
      omega
    · split
      · push_cast
        omega
      · push_cast
        omega
  · push_cast
    omega

theorem sizeStep_start (cs ov : Nat) (content : List Char) (s : SizeSt) :
    (sizeStep cs ov content s).start = chunkEnd cs content s.start - ov := by
  unfold sizeStep
  dsimp only
  split <;> rfl

theorem sizeRun_isSome (cs ov : Nat) (content : List Char)
    (hov : ov < cs) (hov2 : ov ≤ cs / 2 + 1) :
    ∀ (k : Nat) (s : SizeSt), 0 ≤ s.start →
      (content.length : Int) ≤ s.start + (k : Int) * ((min (cs - ov) (cs / 2 + 2 - ov) : Nat) : Int) →
      (sizeRun cs ov content k s).isSome := by
  intro k
  induction k with
  | zero =>
    intro s h0 hlen
    unfold sizeRun
    rw [if_neg (by push_cast at hlen; omega)]
    simp
  | succ k ih =>
    intro s h0 hlen
    unfold sizeRun
    split
    · apply ih
      · rw [sizeStep_start]
        have hge := chunkEnd_ge cs content s.start
        have hd : (1 : Int) ≤ ((min cs (cs / 2 + 2) : Nat) : Int) - ov := by
          push_cast
          omega
        omega
      · rw [sizeStep_start]
        have hge := chunkEnd_ge cs content s.start
        have hsucc : ((k + 1 : Nat) : Int) * ((min (cs - ov) (cs / 2 + 2 - ov) : Nat) : Int)
            = (k : Int) * ((min (cs - ov) (cs / 2 + 2 - ov) : Nat) : Int)
              + ((min (cs - ov) (cs / 2 + 2 - ov) : Nat) : Int) := by
          push_cast
          ring
        rw [hsucc] at hlen
        generalize hM : (k : Int) * ((min (cs - ov) (cs / 2 + 2 - ov) : Nat) : Int) = M at hlen ⊢
        have hDle : ((min (cs - ov) (cs / 2 + 2 - ov) : Nat) : Int)
            ≤ ((min cs (cs / 2 + 2) : Nat) : Int) - ov := by
          push_cast
          omega
        omega
    · simp

/-- Claim C6 (amended): size-based chunking terminates provided
`overlap < chunk_size` AND `overlap ≤ chunk_size/2 + 1` (integer division),
within `ceil(len(text) / min(chunk_size - overlap, chunk_size/2 + 2 - overlap))`
window steps; snapping can shrink a window's advance to
`chunk_size/2 + 2 - overlap`, so neither termination nor the
`ceil(len/(chunk_size - overlap))` bound holds for `overlap < chunk_size`
alone. -/
theorem chunk_by_size_terminates (content : List Char) (cs ov : Nat)
    (hov : ov < cs) (hov2 : ov ≤ cs / 2 + 1) :
    (chunkBySizeFuel (ceilDivNat content.length (min (cs - ov) (cs / 2 + 2 - ov)))
        content cs ov).isSome := by
  unfold chunkBySizeFuel
  apply sizeRun_isSome cs ov content hov hov2
  · simp
  · show (content.length : Int) ≤ 0 + _
    have hD : 0 < min (cs - ov) (cs / 2 + 2 - ov) := by omega
    have hle := le_ceilDivNat_mul content.length (min (cs - ov) (cs / 2 + 2 - ov)) hD
    have h2 : ((content.length : Nat) : Int)
        ≤ ((ceilDivNat content.length (min (cs - ov) (cs / 2 + 2 - ov))
            * min (cs - ov) (cs / 2 + 2 - ov) : Nat) : Int) := by
      exact_mod_cast hle
    rw [Nat.cast_mul] at h2
    simpa using h2

/-- Claim C6 counterexample: with `chunk_size = 10` and `overlap = 8`
(`overlap < chunk_size` holds) on the 12-character text `aaaaaaa.xxxx`,
sentence snapping fixes `end = 8` and `start = end - overlap = 0` forever,
so after `ceil(12 / (10 - 8)) = 6` window steps — indeed after 100 — the
loop has not terminated, refuting the claimed bound (and termination). -/
theorem chunk_by_size_stalls :
    (8 : Nat) < 10
    ∧ ceilDivNat "aaaaaaa.xxxx".data.length (10 - 8) = 6
    ∧ chunkBySizeFuel 6 "aaaaaaa.xxxx".data 10 8 = none
    ∧ chunkBySizeFuel 100 "aaaaaaa.xxxx".data 10 8 = none := by
  refine ⟨by decide, by decide, by decide, by decide⟩

theorem chunk_by_size_terminates_witness :
    (3 : Nat) < 10 ∧ (3 : Nat) ≤ 10 / 2 + 1
    ∧ (chunkBySizeFuel (ceilDivNat "aaaaaaaaaaaa".data.length (min (10 - 3) (10 / 2 + 2 - 3)))
        "aaaaaaaaaaaa".data 10 3).isSome :=
  ⟨by decide, by decide,
   chunk_by_size_terminates "aaaaaaaaaaaa".data 10 3 (by decide) (by decide)⟩

/-! # The 100-character discard boundary (claim C8) -/

/-- The slices both chunkers keep: trimmed content strictly longer than 100
characters (`if len(chunk_content) > 100`). -/
def keptSlices (slices : List (List Char)) : List (List Char) :=
  slices.filter (fun s => 100 < s.length)

theorem chunksFromBoundaries_filter (content : List Char) :
    ∀ (bs : List Nat) (i : Nat),
      (chunksFromBoundariesAux content bs i).map PDFChunk.content
        = keptSlices ((bs.zip bs.tail).map
            (fun p => pyStrip (listSliceNat content p.1 p.2))) := by
  intro bs
  induction bs with
  | nil => intro i; rfl
  | cons b1 rest ih =>
    intro i
    cases rest with
    | nil => rfl
    | cons b2 rest2 =>
      unfold chunksFromBoundariesAux
      dsimp only
      by_cases hlen : 100 < (pyStrip (listSliceNat content b1 b2)).length
      · rw [if_pos hlen]
        simp only [List.map_append, List.map_cons, List.map_nil, List.tail_cons,
          List.zip_cons_cons, keptSlices, List.filter_cons]
        rw [ih (i + 1)]
        simp [keptSlices, hlen]
      · rw [if_neg hlen]
        simp only [List.nil_append, List.tail_cons, List.zip_cons_cons, List.map_cons,
          keptSlices, List.filter_cons]
        rw [ih (i + 1)]
        simp [keptSlices, hlen]

/-- `sizeRun` emits exactly the window slices of `sizeTrace` whose trimmed
length exceeds 100. -/
theorem sizeRun_trace (cs ov : Nat) (content : List Char) :
    ∀ (fuel : Nat) (s : SizeSt) (out : List PDFChunk),
      sizeRun cs ov content fuel s = some out →
      ∃ tr, sizeTrace cs ov content fuel s.start = some tr
        ∧ out.map PDFChunk.content = s.chunks.map PDFChunk.content ++ keptSlices tr := by
  intro fuel
  induction fuel with
  | zero =>
    intro s out h
    unfold sizeRun at h
    unfold sizeTrace
    by_cases hg : s.start < (content.length : Int)
    · rw [if_pos hg] at h
      simp at h
    · rw [if_neg hg] at h
      rw [if_neg hg]
      injection h with hout
      exact ⟨[], rfl, by simp [keptSlices, ← hout]⟩
  | succ f ih =>
    intro s out h
    unfold sizeRun at h
    unfold sizeTrace
    by_cases hg : s.start < (content.length : Int)
    · rw [if_pos hg] at h
      rw [if_pos hg]
      obtain ⟨tr, htr, hmap⟩ := ih (sizeStep cs ov content s) out h
      rw [sizeStep_start] at htr
      refine ⟨pyStrip (pySlice content s.start (chunkEnd cs content s.start)) :: tr, ?_, ?_⟩
      · dsimp only
        rw [htr]
        rfl
      · have hstep : (sizeStep cs ov content s).chunks
            = s.chunks ++
              (if 100 < (pyStrip (pySlice content s.start
                    (chunkEnd cs content s.start))).length
                then [⟨pyStrip (pySlice content s.start (chunkEnd cs content s.start)),
                  s.chunkNum + 1, s.chunkNum + 1,
                  .sizeMeta s.start (chunkEnd cs content s.start)⟩]
                else []) := by
          unfold sizeStep
          dsimp only
          split
          · rfl
          · simp
        rw [hmap, hstep]
        by_cases hk : 100 < (pyStrip (pySlice content s.start
            (chunkEnd cs content s.start))).length
        · rw [if_pos hk]
          simp [keptSlices, List.filter_cons, hk]
        · rw [if_neg hk]
          simp [keptSlices, List.filter_cons, hk]
    · rw [if_neg hg] at h
      rw [if_neg hg]
      injection h with hout
      exact ⟨[], rfl, by simp [keptSlices, ← hout]⟩

/-- Claim C8 (amended): in both chunkers a slice is discarded exactly when
its trimmed content is at most 100 characters long — the source tests
`len(chunk_content) > 100`, so a slice of exactly 100 trimmed characters is
discarded, not kept: section-based chunking emits precisely the trimmed
boundary slices longer than 100 characters, in order; size-based chunking
emits precisely the trimmed window slices longer than 100 characters; hence
every emitted chunk's trimmed content has at least 101 characters. -/
theorem chunk_discard_boundary :
    (∀ (content : List Char) (bs : List Nat) (i : Nat),
      (chunksFromBoundariesAux content bs i).map PDFChunk.content
        = keptSlices ((bs.zip bs.tail).map (fun p => pyStrip (listSliceNat content p.1 p.2))))
    ∧ (∀ (content : List Char) (c : PDFChunk), c ∈ chunk_by_sections content →
        100 < c.content.length)
    ∧ (∀ (fuel cs ov : Nat) (content : List Char) (out : List PDFChunk),
        chunkBySizeFuel fuel content cs ov = some out →
        ∃ tr, sizeTraceFuel fuel content cs ov = some tr
          ∧ out.map PDFChunk.content = keptSlices tr)
    ∧ (∀ (fuel cs ov : Nat) (content : List Char) (out : List PDFChunk) (c : PDFChunk),
        chunkBySizeFuel fuel content cs ov = some out → c ∈ out →
        100 < c.content.length) := by
  have hsize : ∀ (fuel cs ov : Nat) (content : List Char) (out : List PDFChunk),
      chunkBySizeFuel fuel content cs ov = some out →
      ∃ tr, sizeTraceFuel fuel content cs ov = some tr
        ∧ out.map PDFChunk.content = keptSlices tr := by
    intro fuel cs ov content out h
    obtain ⟨tr, htr, hmap⟩ := sizeRun_trace cs ov content fuel ⟨0, 0, []⟩ out h
    exact ⟨tr, htr, by simpa using hmap⟩
  refine ⟨fun content => chunksFromBoundaries_filter content, ?_, hsize, ?_⟩
  · intro content c hc
    unfold chunk_by_sections at hc
    by_cases hgate : 2 < (section_boundaries content).length
    · rw [if_pos hgate] at hc
      have hmem : c.content ∈ (chunksFromBoundariesAux content (section_boundaries content) 0).map
          PDFChunk.content := List.mem_map_of_mem _ hc
      rw [chunksFromBoundaries_filter content (section_boundaries content) 0] at hmem
      have := List.of_mem_filter hmem
      simpa using this
    · rw [if_neg hgate] at hc
      simp at hc
  · intro fuel cs ov content out c hrun hc
    obtain ⟨tr, _, hmap⟩ := hsize fuel cs ov content out hrun
    have hmem : c.content ∈ out.map PDFChunk.content := List.mem_map_of_mem _ hc
    rw [hmap] at hmem
    have := List.of_mem_filter hmem
    simpa using this

set_option maxRecDepth 4000 in
/-- Claim C8 counterexample: a window slice whose trimmed content has
exactly 100 characters is discarded (the claim requires every slice of
trimmed length ≥ 100 to be emitted): 100 characters of text with
`chunk_size = 200`, `overlap = 50` yield no chunk at all. -/
theorem chunk_exact_100_discarded :
    (pyStrip (List.replicate 100 'a')).length = 100
    ∧ chunkBySizeFuel 2 (List.replicate 100 'a') 200 50 = some [] := by
  refine ⟨by decide, by decide⟩

set_option maxRecDepth 4000 in
theorem chunk_discard_boundary_witness :
    chunkBySizeFuel 2 (List.replicate 120 'a') 200 50
        = some [⟨List.replicate 120 'a', 1, 1, .sizeMeta 0 200⟩]
    ∧ 100 < (PDFChunk.mk (List.replicate 120 'a') 1 1 (.sizeMeta 0 200)).content.length
    ∧ ∃ tr, sizeTraceFuel 2 (List.replicate 120 'a') 200 50 = some tr
        ∧ [PDFChunk.mk (List.replicate 120 'a') 1 1 (.sizeMeta 0 200)].map PDFChunk.content
            = keptSlices tr := by
  have hrun : chunkBySizeFuel 2 (List.replicate 120 'a') 200 50
      = some [⟨List.replicate 120 'a', 1, 1, .sizeMeta 0 200⟩] := by decide
  refine ⟨hrun, ?_, ?_⟩
  · exact chunk_discard_boundary.2.2.2 2 200 50 (List.replicate 120 'a') _ _ hrun (by simp)
  · exact chunk_discard_boundary.2.2.1 2 200 50 (List.replicate 120 'a') _ hrun

/-! # Top-level operations absorb faults (claim C3) -/

/-- Claim C3: `process_pdf` and `analyze_structure` always return a text
report, whatever the inputs and however the extraction oracle or the
reasoning callable behave — a missing `cli_tool` and a raising extraction
yield the corresponding error reports, a successful extraction yields the
formatted result of the (itself total) completion loop, and in no case does
an exception escape. -/
theorem process_and_analyze_total (st : SkillSt) (pdf_path query : String)
    (cli : Option CliTool) (execT : ExecTool)
    (exF exU : String → Except String PDFDocument) :
    (cli = none → (process_pdf st pdf_path query cli execT exF exU).1
        = "Error: cli_tool is required for RLM operation")
    ∧ (∀ e tool, cli = some tool →
        (if startsWithHttp pdf_path then exU pdf_path else exF pdf_path) = .error e →
        (process_pdf st pdf_path query cli execT exF exU).1 = "Error processing PDF: " ++ e)
    ∧ (∀ doc tool, cli = some tool →
        (if startsWithHttp pdf_path then exU pdf_path else exF pdf_path) = .ok doc →
        (process_pdf st pdf_path query cli execT exF exU).1
          = format_process_result
              (completion (processComponents st).1.cfg (processComponents st).1.stats
                (create_context_for_rlm doc) query tool execT).1
              (completion (processComponents st).1.cfg (processComponents st).1.stats
                (create_context_for_rlm doc) query tool execT).2)
    ∧ (∀ e, exF pdf_path = .error e →
        (analyze_structure st pdf_path exF).1 = "Error analyzing PDF: " ++ e)
    ∧ (∃ s : String, (process_pdf st pdf_path query cli execT exF exU).1 = s)
    ∧ (∃ s : String, (analyze_structure st pdf_path exF).1 = s) := by
  refine ⟨?_, ?_, ?_, ?_, ⟨_, rfl⟩, ⟨_, rfl⟩⟩
  · intro hnone
    rw [hnone]
    rfl
  · intro e tool htool hext
    rw [htool]
    unfold process_pdf
    dsimp only
    rw [hext]
  · intro doc tool htool hext
    rw [htool]
    unfold process_pdf
    dsimp only
    rw [hext]
  · intro e hext
    unfold analyze_structure
    dsimp only
    rw [hext]

def c3failF : String → Except String PDFDocument :=
  fun _ => .error "FileNotFoundError: PDF file not found: missing.pdf"

theorem process_and_analyze_total_witness :
    (process_pdf freshSkill "missing.pdf" "q" (some c1toolFinal) c1execT c3failF c3failF).1
        = "Error processing PDF: FileNotFoundError: PDF file not found: missing.pdf"
    ∧ (process_pdf freshSkill "missing.pdf" "q" none c1execT c3failF c3failF).1
        = "Error: cli_tool is required for RLM operation"
    ∧ (analyze_structure freshSkill "missing.pdf" c3failF).1
        = "Error analyzing PDF: FileNotFoundError: PDF file not found: missing.pdf" := by
  refine ⟨?_, ?_, ?_⟩
  · exact (process_and_analyze_total freshSkill "missing.pdf" "q" (some c1toolFinal) c1execT
      c3failF c3failF).2.1 "FileNotFoundError: PDF file not found: missing.pdf" c1toolFinal
      rfl rfl
  · exact (process_and_analyze_total freshSkill "missing.pdf" "q" none c1execT
      c3failF c3failF).1 rfl
  · exact (process_and_analyze_total freshSkill "missing.pdf" "q" none c1execT
      c3failF c3failF).2.2.2.1 "FileNotFoundError: PDF file not found: missing.pdf" rfl

end RLMSpec
